import Mathlib

/-!
# Verification of the AI_Price_Optima ingestion pipeline

A shallow embedding of `src/AI_Price_optima/data/ingest.py`: tabular data
(pandas DataFrames) is modelled as a list of column names together with a
list of rows, each row a list of cell values.  Cell values are either null
(pandas NaN/NaT/None), a rational number, a string, or a date.  The two
cleaning transforms `clean_sales` and `clean_inventory` and the `main`
orchestrator are translated step by step from the source.
-/

namespace Ingest

/-- Bounded-fuel Euclidean step for the gcd (structural, so the kernel can
evaluate it). -/
def gcdF : Nat → Nat → Nat → Nat
  | 0, _, b => b
  | _ + 1, 0, b => b
  | fuel + 1, a + 1, b => gcdF fuel (b % (a + 1)) (a + 1)

/-- Greatest common divisor (fuel-based, kernel-computable). -/
def natGcd (a b : Nat) : Nat := gcdF (a + 1) a b

/-- Exact rational numbers (numerator, positive denominator, lowest terms
when built by the smart constructors): the idealized model of the float
values pandas computes with. -/
structure Frac where
  n : Int
  d : Nat
deriving DecidableEq, Repr

/-- Build a normalized fraction from a numerator and a denominator. -/
def mkQ (num : Int) (den : Nat) : Frac :=
  if den = 0 then ⟨0, 1⟩
  else
    let g := natGcd num.natAbs den
    ⟨num / (g : Int), den / g⟩

/-- Normalized fraction from two integers (sign moved to the numerator). -/
def mkQI (num den : Int) : Frac :=
  if den < 0 then mkQ (-num) (-den).toNat else mkQ num den.toNat

instance : OfNat Frac k := ⟨⟨Int.ofNat k, 1⟩⟩

instance : NatCast Frac := ⟨fun k => ⟨Int.ofNat k, 1⟩⟩

instance : Neg Frac := ⟨fun a => ⟨-a.n, a.d⟩⟩

instance : Mul Frac := ⟨fun a b => mkQ (a.n * b.n) (a.d * b.d)⟩

instance : Add Frac := ⟨fun a b => mkQ (a.n * b.d + b.n * a.d) (a.d * b.d)⟩

instance : Div Frac := ⟨fun a b => mkQI (a.n * b.d) (a.d * b.n)⟩

instance : Pow Frac Nat := ⟨fun a k => ⟨a.n ^ k, a.d ^ k⟩⟩

/-- Comparison by cross-multiplication (denominators are positive). -/
def leF (a b : Frac) : Prop := a.n * (b.d : Int) ≤ b.n * (a.d : Int)

instance : LE Frac := ⟨leF⟩

instance (a b : Frac) : Decidable (a ≤ b) :=
  inferInstanceAs (Decidable (a.n * (b.d : Int) ≤ b.n * (a.d : Int)))

/-- A cell value of a table.  `null` models pandas NaN/NaT/None; numbers are
modelled as rationals; `date` models a parsed datetime (year, month, day). -/
inductive Value where
  | null : Value
  | num (q : Frac) : Value
  | str (s : String) : Value
  | date (y m d : Nat) : Value
deriving DecidableEq, Repr

/-- Parse a (non-empty) list of decimal digit characters to a natural number;
`none` if empty or any character is not a digit. -/
def parseDigits (cs : List Char) : Option Nat :=
  if cs.isEmpty then none
  else cs.foldl
    (fun acc c => acc.bind fun n =>
      if c.isDigit then some (n * 10 + (c.toNat - 48)) else none)
    (some 0)

/-- Split a character list on a separator (the char-level analogue of
`String.splitOn` for a single-character separator). -/
def splitOnChar (sep : Char) : List Char → List (List Char)
  | [] => [[]]
  | c :: cs =>
      let rest := splitOnChar sep cs
      if c = sep then [] :: rest
      else
        match rest with
        | [] => [[c]]
        | p :: ps => (c :: p) :: ps

/-- Parse a decimal literal (optional sign, optional fractional part) to a
rational; models the strings `pd.to_numeric` accepts for plain decimals. -/
def parseRat (s : String) : Option Frac :=
  let cs := s.toList
  let signRest : Bool × List Char :=
    match cs with
    | '-' :: r => (true, r)
    | '+' :: r => (false, r)
    | r => (false, r)
  let neg := signRest.1
  match splitOnChar '.' signRest.2 with
  | [intPart] =>
      (parseDigits intPart).map fun n =>
        if neg then -(n : Frac) else (n : Frac)
  | [intPart, fracPart] =>
      match parseDigits intPart, parseDigits fracPart with
      | some i, some f =>
          let q : Frac := (i : Frac) + (f : Frac) / ((10 : Frac) ^ fracPart.length)
          some (if neg then -q else q)
      | _, _ => none
  | _ => none

/-- `pd.to_numeric(·, errors="coerce")` on one cell: numbers pass through,
strings are parsed, anything unparsable becomes null. -/
def toNumeric : Value → Value
  | .num q => .num q
  | .str s =>
      match parseRat s with
      | some q => .num q
      | none => .null
  | _ => .null

/-- `pd.to_datetime(·, errors="coerce")` on one cell, modelled for ISO
`YYYY-MM-DD` strings: dates pass through, parsable strings become dates,
anything else becomes null. -/
def toDatetime : Value → Value
  | .date y m d => .date y m d
  | .str s =>
      match splitOnChar '-' s.toList with
      | [ys, ms, ds] =>
          match parseDigits ys, parseDigits ms, parseDigits ds with
          | some y, some m, some d =>
              if 1 ≤ m ∧ m ≤ 12 ∧ 1 ≤ d ∧ d ≤ 31 then .date y m d else .null
          | _, _, _ => .null
      | _ => .null
  | _ => .null

/-- `Series.fillna(d)` on one cell: null becomes `d`, others unchanged.
(Filling with null, as `fillna(NaN)` does, leaves nulls in place.) -/
def fillna (d : Value) (v : Value) : Value :=
  if v = .null then d else v

/-- Elementwise product of two numeric series cells: NaN propagates. -/
def mulV : Value → Value → Value
  | .num a, .num b => .num (a * b)
  | _, _ => .null

/-- Index of the first column named `c` (pandas label lookup). -/
def colIdx (c : String) : List String → Option Nat
  | [] => none
  | c' :: cs => if c' = c then some 0 else (colIdx c cs).map (· + 1)

/-- Replace the element at index `i` by `f` of it; out-of-range is a no-op. -/
def modifyIdx (f : Value → Value) : Nat → List Value → List Value
  | _, [] => []
  | 0, v :: r => f v :: r
  | n + 1, v :: r => v :: modifyIdx f n r

/-- `DataFrame.drop_duplicates()`: keep the first occurrence of each row. -/
def dedupFirst : List (List Value) → List (List Value)
  | [] => []
  | r :: rs => r :: (dedupFirst rs).filter (· ≠ r)

/-- Insert into an ascending list (the sort underlying `Series.median`). -/
def insertSorted (x : Frac) : List Frac → List Frac
  | [] => [x]
  | y :: ys => if x ≤ y then x :: y :: ys else y :: insertSorted x ys

/-- Sort rationals ascending (insertion sort). -/
def sortRats : List Frac → List Frac
  | [] => []
  | x :: xs => insertSorted x (sortRats xs)

/-- `Series.median()` (NaN-skipping callers pass the numeric values only):
middle element for odd length, mean of the two middles for even length,
undefined (`none`, i.e. NaN) for the empty list. -/
def median (xs : List Frac) : Option Frac :=
  let s := sortRats xs
  let n := s.length
  if n = 0 then none
  else if n % 2 = 1 then s.get? (n / 2)
  else
    match s.get? (n / 2 - 1), s.get? (n / 2) with
    | some a, some b => some ((a + b) / 2)
    | _, _ => none

/-- A DataFrame: named columns and a list of rows of cells. -/
structure Table where
  cols : List String
  rows : List (List Value)
deriving DecidableEq, Repr

instance {ε α : Type} [DecidableEq ε] [DecidableEq α] :
    DecidableEq (Except ε α) := fun a b =>
  match a, b with
  | .error x, .error y => decidable_of_iff (x = y) (by simp)
  | .ok x, .ok y => decidable_of_iff (x = y) (by simp)
  | .error _, .ok _ => isFalse (fun h => Except.noConfusion h)
  | .ok _, .error _ => isFalse (fun h => Except.noConfusion h)

/-- A table is well-formed (rectangular) when every row has one cell per
column, as a DataFrame read from CSV always is. -/
def Table.WF (t : Table) : Prop :=
  ∀ r ∈ t.rows, r.length = t.cols.length

instance (t : Table) : Decidable t.WF := by
  unfold Table.WF; infer_instance

/-- The cell of row `r` in the column named `c` (null when absent). -/
def cellOf (cols : List String) (r : List Value) (c : String) : Value :=
  match colIdx c cols with
  | some i => r.getD i .null
  | none => .null

/-- Apply `f` to the cell of row `r` in column `c` (no-op when absent). -/
def rowStep (cols : List String) (c : String) (f : Value → Value)
    (r : List Value) : List Value :=
  match colIdx c cols with
  | some i => modifyIdx f i r
  | none => r

/-- `df[c] = f(df[c])`: apply `f` to every cell of column `c`. -/
def mapCol (t : Table) (c : String) (f : Value → Value) : Table :=
  ⟨t.cols, t.rows.map (rowStep t.cols c f)⟩

/-- The values of column `c` (null for a missing cell). -/
def colVals (t : Table) (c : String) : List Value :=
  t.rows.map (fun r => cellOf t.cols r c)

/-- The numeric part of a cell (`some` exactly on numbers). -/
def numPart : Value → Option Frac
  | .num q => some q
  | _ => none

/-- The numeric entries of column `c` (what `Series.median` aggregates,
since it skips NaN). -/
def colNums (t : Table) (c : String) : List Frac :=
  (colVals t c).filterMap numPart

/-- The median of column `c` as a fill value: NaN when undefined. -/
def colMedian (t : Table) (c : String) : Value :=
  match median (colNums t c) with
  | some q => .num q
  | none => .null

/-- `df[c] = df[c].fillna(d)`. -/
def fillCol (t : Table) (c : String) (d : Value) : Table :=
  mapCol t c (fillna d)

/-- Row transformer of the TotalAmount fill: fill a null TotalAmount cell
with the product of the row's Quantity and UnitPrice cells. -/
def taRowFun (cols : List String) (r : List Value) : List Value :=
  rowStep cols "TotalAmount"
    (fillna (mulV (cellOf cols r "Quantity") (cellOf cols r "UnitPrice"))) r

/-- `df["TotalAmount"] = df["TotalAmount"].fillna(df["Quantity"] *
df["UnitPrice"])`: row-wise fill of null TotalAmount cells with the product
of the row's (already filled) Quantity and UnitPrice cells. -/
def fillTotalAmount (t : Table) : Table :=
  ⟨t.cols, t.rows.map (taRowFun t.cols)⟩

def SALES_REQUIRED : List String :=
  ["OrderID", "OrderDate", "CustomerID", "ProductID", "Quantity",
   "UnitPrice", "Discount", "Tax", "ShippingCost", "TotalAmount",
   "PaymentMethod", "OrderStatus", "City", "State", "Country"]

def INVENTORY_REQUIRED : List String :=
  ["ProductID", "ProductName", "Category", "Brand", "SellerID"]

/-- `required - set(df.columns)` of the validation check. -/
def missingCols (required : List String) (cols : List String) : List String :=
  required.filter (fun c => ¬ (c ∈ cols))

def SALES_NUMERIC : List String :=
  ["Quantity", "UnitPrice", "Discount", "Tax", "ShippingCost", "TotalAmount"]

def SALES_CATEGORICAL : List String :=
  ["PaymentMethod", "OrderStatus", "City", "State", "Country"]

/-- The body of `clean_sales` after validation, step for step. -/
def cleanSalesSteps (t : Table) : Table :=
  -- df = df.drop_duplicates()
  let t := Table.mk t.cols (dedupFirst t.rows)
  -- df["OrderDate"] = pd.to_datetime(df["OrderDate"], errors="coerce")
  let t := mapCol t "OrderDate" toDatetime
  -- for col in [...]: df[col] = pd.to_numeric(df[col], errors="coerce")
  let t := SALES_NUMERIC.foldl (fun t c => mapCol t c toNumeric) t
  -- df["Quantity"] = df["Quantity"].fillna(1)
  let t := fillCol t "Quantity" (.num 1)
  -- df["UnitPrice"] = df["UnitPrice"].fillna(df["UnitPrice"].median())
  let t := fillCol t "UnitPrice" (colMedian t "UnitPrice")
  -- df["Discount"] = df["Discount"].fillna(0); same for Tax, ShippingCost
  let t := fillCol t "Discount" (.num 0)
  let t := fillCol t "Tax" (.num 0)
  let t := fillCol t "ShippingCost" (.num 0)
  -- df["TotalAmount"] = df["TotalAmount"].fillna(df["Quantity"] * df["UnitPrice"])
  let t := fillTotalAmount t
  -- for col in [...]: df[col] = df[col].fillna("Unknown")
  let t := SALES_CATEGORICAL.foldl (fun t c => fillCol t c (.str "Unknown")) t
  t

/-- `clean_sales`: validation (raising `ValueError` on missing required
columns, modelled as `Except.error` carrying the missing set) followed by the
cleaning steps. -/
def clean_sales (t : Table) : Except (List String) Table :=
  let missing := missingCols SALES_REQUIRED t.cols
  if missing ≠ [] then .error missing
  else .ok (cleanSalesSteps t)

def INVENTORY_FILL : List String :=
  ["ProductName", "Category", "Brand", "SellerID"]

/-- The body of `clean_inventory` after validation. -/
def cleanInventorySteps (t : Table) : Table :=
  let t := Table.mk t.cols (dedupFirst t.rows)
  let t := INVENTORY_FILL.foldl (fun t c => fillCol t c (.str "Unknown")) t
  t

/-- `clean_inventory`: validation then dedup and categorical fills. -/
def clean_inventory (t : Table) : Except (List String) Table :=
  let missing := missingCols INVENTORY_REQUIRED t.cols
  if missing ≠ [] then .error missing
  else .ok (cleanInventorySteps t)

/-!
## Closed forms of the two transforms

The cleaning steps after deduplication are all row-wise; the following
definitions package the per-row effect so that theorems can describe the
output cell by cell.
-/

/-- The fused per-row effect of the sales cleaning steps, given the
UnitPrice median fill value `med` of the run. -/
def salesRow (cols : List String) (med : Value) (r : List Value) :
    List Value :=
  let r := rowStep cols "OrderDate" toDatetime r
  let r := SALES_NUMERIC.foldl (fun r c => rowStep cols c toNumeric r) r
  let r := rowStep cols "Quantity" (fillna (.num 1)) r
  let r := rowStep cols "UnitPrice" (fillna med) r
  let r := rowStep cols "Discount" (fillna (.num 0)) r
  let r := rowStep cols "Tax" (fillna (.num 0)) r
  let r := rowStep cols "ShippingCost" (fillna (.num 0)) r
  let r := taRowFun cols r
  let r := SALES_CATEGORICAL.foldl
    (fun r c => rowStep cols c (fillna (.str "Unknown")) r) r
  r

/-- The UnitPrice median fill value of a sales run: the median of the
numeric entries of the coerced UnitPrice column (of the deduplicated
rows), computed before any UnitPrice fill; null when undefined. -/
def medSalesVal (t : Table) : Value :=
  match median (((dedupFirst t.rows).map
      fun r => toNumeric (cellOf t.cols r "UnitPrice")).filterMap numPart) with
  | some q => .num q
  | none => .null

/-- The fused per-row effect of the inventory cleaning steps. -/
def invRow (cols : List String) (r : List Value) : List Value :=
  INVENTORY_FILL.foldl (fun r c => rowStep cols c (fillna (.str "Unknown")) r) r

/-!
## The orchestrator

`main` reads the two raw CSV files, cleans and writes.  The filesystem is
modelled as an association of paths to file data, plus a set of paths whose
writes fail (`to_csv` raising); a missing file makes `read_csv` raise
(modelled as `none`), a present but unparsable file is `malformed`.
Each `print` of the source becomes a `Msg`.
-/

/-- Contents of a file: a parsable CSV table, or malformed data on which
`read_csv` raises. -/
inductive FileData where
  | table (t : Table) : FileData
  | malformed : FileData
deriving DecidableEq, Repr

/-- The filesystem state: path-to-contents association (later entries
shadowed by earlier ones) and the set of paths where writing raises. -/
structure FS where
  files : List (String × FileData)
  badWrites : List String
deriving DecidableEq, Repr

/-- `pd.read_csv(p)`: `none` models `FileNotFoundError` (and is also the
`os.path.exists(p) = False` case). -/
def FS.read (fs : FS) (p : String) : Option FileData :=
  (fs.files.find? fun e => e.1 = p).map (·.2)

/-- `df.to_csv(p)`: `none` models a write error. -/
def FS.writeFile (fs : FS) (p : String) (t : Table) : Option FS :=
  if p ∈ fs.badWrites then none
  else some ⟨(p, .table t) :: fs.files.filter (fun e => ¬ (e.1 = p)), fs.badWrites⟩

def RAW_DIR : String := "data/raw"
def PROCESSED_DIR : String := "data/processed"
def DAILY_DIR : String := "data/daily_ingest"

def salesRawPath : String := RAW_DIR ++ "/sales_data.csv"
def salesProcessedPath : String := PROCESSED_DIR ++ "/sales_cleaned.csv"
def salesDailyPath (today : String) : String :=
  DAILY_DIR ++ "/" ++ today ++ "/sales_cleaned.csv"
def invRawPath : String := RAW_DIR ++ "/inventory_data.csv"
def invProcessedPath : String := PROCESSED_DIR ++ "/inventory_cleaned.csv"
def invDailyPath (today : String) : String :=
  DAILY_DIR ++ "/" ++ today ++ "/inventory_cleaned.csv"

/-- The status lines `main` prints. -/
inductive Msg where
  | salesLoaded : Msg
  | salesCleanedSaved : Msg
  | salesError : Msg
  | invLoaded : Msg
  | invCleanedSaved : Msg
  | invError : Msg
  | invSkipped : Msg
  | ingestionCompleted : Msg
deriving DecidableEq, Repr

/-- The first `try` block of `main`: read, clean and write the sales data;
any raise (missing file, parse error, validation error, write error) is
caught and reported as `salesError`. -/
def salesStep (today : String) (fs : FS) : List Msg × FS :=
  match fs.read salesRawPath with
  | none => ([.salesError], fs)
  | some .malformed => ([.salesError], fs)
  | some (.table df) =>
    match clean_sales df with
    | .error _ => ([.salesLoaded, .salesError], fs)
    | .ok c =>
      match fs.writeFile salesProcessedPath c with
      | none => ([.salesLoaded, .salesError], fs)
      | some fs1 =>
        match fs1.writeFile (salesDailyPath today) c with
        | none => ([.salesLoaded, .salesError], fs1)
        | some fs2 => ([.salesLoaded, .salesCleanedSaved], fs2)

/-- The second `try` block of `main`: if the inventory file exists, read,
clean and write it (raises caught as `invError`); otherwise report a skip. -/
def invStep (today : String) (fs : FS) : List Msg × FS :=
  match fs.read invRawPath with
  | none => ([.invSkipped], fs)
  | some .malformed => ([.invError], fs)
  | some (.table df) =>
    match clean_inventory df with
    | .error _ => ([.invLoaded, .invError], fs)
    | .ok c =>
      match fs.writeFile invProcessedPath c with
      | none => ([.invLoaded, .invError], fs)
      | some fs1 =>
        match fs1.writeFile (invDailyPath today) c with
        | none => ([.invLoaded, .invError], fs1)
        | some fs2 => ([.invLoaded, .invCleanedSaved], fs2)

/-- `main`: run the sales block, then the inventory block, then report
completion. -/
def main (today : String) (fs : FS) : List Msg × FS :=
  let s := salesStep today fs
  let i := invStep today s.2
  (s.1 ++ i.1 ++ [.ingestionCompleted], i.2)

/-!
## Concrete example data

Small tables used to instantiate the theorems and to exhibit the edge-case
behaviour of the transforms.
-/

/-- A valid one-row sales table with empty Quantity and TotalAmount and
UnitPrice `"10"` (the spec's worked scenario). -/
def exSales : Table :=
  ⟨SALES_REQUIRED,
   [[.str "1", .str "2024-01-05", .str "C1", .str "P1",
     .str "", .str "10", .str "0", .str "0", .str "0",
     .str "", .str "Card", .str "Delivered", .str "Pune",
     .str "MH", .str "India"]]⟩

/-- A valid sales table with two rows that differ only in Quantity
(`""` versus `"1"`) and so collide after cleaning. -/
def exSalesDup : Table :=
  ⟨SALES_REQUIRED,
   [[.str "1", .str "2024-01-05", .str "C1", .str "P1",
     .str "", .str "10", .str "0", .str "0", .str "0",
     .str "10", .str "Card", .str "Delivered", .str "Pune",
     .str "MH", .str "India"],
    [.str "1", .str "2024-01-05", .str "C1", .str "P1",
     .str "1", .str "10", .str "0", .str "0", .str "0",
     .str "10", .str "Card", .str "Delivered", .str "Pune",
     .str "MH", .str "India"]]⟩

/-- A valid one-row sales table whose only UnitPrice value is unparsable
(the undefined-median edge case). -/
def exSalesNullUP : Table :=
  ⟨SALES_REQUIRED,
   [[.str "1", .str "2024-01-05", .str "C1", .str "P1",
     .str "2", .str "", .str "0", .str "0", .str "0",
     .str "", .str "Card", .str "Delivered", .str "Pune",
     .str "MH", .str "India"]]⟩

/-- A valid inventory table with a duplicate row and a null Brand. -/
def exInv : Table :=
  ⟨INVENTORY_REQUIRED,
   [[.str "P1", .str "Phone", .str "Electronics", .null, .str "S1"],
    [.str "P1", .str "Phone", .str "Electronics", .null, .str "S1"],
    [.str "P2", .str "Shoe", .str "Fashion", .str "Nike", .str "S2"]]⟩

/-- An example filesystem: the sales raw file is present, the inventory raw
file is absent, and no write fails. -/
def exFS : FS :=
  ⟨[(salesRawPath, .table exSales)], []⟩

/-!
## Lemmas about the primitives
-/

theorem colIdx_some {c : String} {cols : List String} {i : Nat}
    (h : colIdx c cols = some i) : i < cols.length ∧ cols.getD i "" = c := by
  induction cols generalizing i with
  | nil => simp [colIdx] at h
  | cons c' cs ih =>
    simp only [colIdx] at h
    by_cases hc : c' = c
    · rw [if_pos hc] at h
      cases h
      simpa using hc
    · rw [if_neg hc] at h
      rcases Option.map_eq_some'.mp h with ⟨j, hj, rfl⟩
      rcases ih hj with ⟨h1, h2⟩
      exact ⟨Nat.succ_lt_succ h1, by simpa using h2⟩

theorem colIdx_of_mem {c : String} {cols : List String} (h : c ∈ cols) :
    ∃ i, colIdx c cols = some i := by
  induction cols with
  | nil => simp at h
  | cons c' cs ih =>
    by_cases hc : c' = c
    · exact ⟨0, by simp [colIdx, hc]⟩
    · have hcs : c ∈ cs := by
        rcases List.mem_cons.mp h with h | h
        · exact absurd h.symm hc
        · exact h
      rcases ih hcs with ⟨i, hi⟩
      exact ⟨i + 1, by simp [colIdx, hc, hi]⟩

theorem colIdx_inj {c c' : String} {cols : List String} {i j : Nat}
    (hc : colIdx c cols = some i) (hc' : colIdx c' cols = some j)
    (hne : c ≠ c') : i ≠ j := by
  intro hij
  subst hij
  exact hne ((colIdx_some hc).2.symm.trans (colIdx_some hc').2)

theorem modifyIdx_length (f : Value → Value) (i : Nat) (r : List Value) :
    (modifyIdx f i r).length = r.length := by
  induction r generalizing i with
  | nil => cases i <;> rfl
  | cons v r ih =>
    cases i with
    | zero => rfl
    | succ n => simp [modifyIdx, ih]

theorem getD_modifyIdx_self (f : Value → Value) {i : Nat} {r : List Value}
    (h : i < r.length) (d : Value) :
    (modifyIdx f i r).getD i d = f (r.getD i d) := by
  induction r generalizing i with
  | nil => simp at h
  | cons v r ih =>
    cases i with
    | zero => rfl
    | succ n =>
      simpa [modifyIdx] using ih (by simpa using h)

theorem getD_modifyIdx_ne (f : Value → Value) {i j : Nat} (hij : i ≠ j)
    (r : List Value) (d : Value) :
    (modifyIdx f i r).getD j d = r.getD j d := by
  induction r generalizing i j with
  | nil => cases i <;> rfl
  | cons v r ih =>
    cases i with
    | zero =>
      cases j with
      | zero => exact absurd rfl hij
      | succ m => rfl
    | succ n =>
      cases j with
      | zero => rfl
      | succ m => simpa [modifyIdx] using ih (show n ≠ m by omega)

theorem modifyIdx_eq_self (f : Value → Value) {i : Nat} {r : List Value}
    (h : f (r.getD i .null) = r.getD i .null) :
    modifyIdx f i r = r := by
  induction r generalizing i with
  | nil => cases i <;> rfl
  | cons v r ih =>
    cases i with
    | zero =>
      simp only [List.getD_cons_zero] at h
      simp [modifyIdx, h]
    | succ n =>
      simp only [List.getD_cons_succ] at h
      simp [modifyIdx, ih h]

theorem rowStep_length (cols : List String) (c : String) (f : Value → Value)
    (r : List Value) : (rowStep cols c f r).length = r.length := by
  cases h : colIdx c cols with
  | none => simp [rowStep, h]
  | some i => simp [rowStep, h, modifyIdx_length]

theorem cellOf_rowStep_self {cols : List String} {c : String}
    (f : Value → Value) {r : List Value} (hc : c ∈ cols)
    (hlen : cols.length ≤ r.length) :
    cellOf cols (rowStep cols c f r) c = f (cellOf cols r c) := by
  rcases colIdx_of_mem hc with ⟨i, hi⟩
  have hil : i < r.length := lt_of_lt_of_le (colIdx_some hi).1 hlen
  simp only [cellOf, rowStep, hi]
  exact getD_modifyIdx_self f hil .null

theorem cellOf_rowStep_ne {cols : List String} {c c' : String}
    (f : Value → Value) (r : List Value) (hne : ¬ c' = c) :
    cellOf cols (rowStep cols c f r) c' = cellOf cols r c' := by
  cases hc : colIdx c cols with
  | none => simp [rowStep, hc]
  | some i =>
    cases hc' : colIdx c' cols with
    | none => simp [cellOf, rowStep, hc, hc']
    | some j =>
      have hij : i ≠ j := colIdx_inj hc hc' (fun h => hne h.symm)
      simp only [cellOf, rowStep, hc, hc']
      exact getD_modifyIdx_ne f hij r .null

theorem rowStep_eq_self {cols : List String} {c : String} {f : Value → Value}
    {r : List Value} (h : f (cellOf cols r c) = cellOf cols r c) :
    rowStep cols c f r = r := by
  cases hc : colIdx c cols with
  | none => simp [rowStep, hc]
  | some i =>
    simp only [cellOf, hc] at h
    simp [rowStep, hc, modifyIdx_eq_self f h]

theorem mem_dedupFirst {l : List (List Value)} {a : List Value} :
    a ∈ dedupFirst l ↔ a ∈ l := by
  induction l with
  | nil => simp [dedupFirst]
  | cons r rs ih =>
    simp only [dedupFirst, List.mem_cons, List.mem_filter,
      decide_eq_true_eq, ih]
    constructor
    · rintro (rfl | ⟨h, _⟩)
      · exact Or.inl rfl
      · exact Or.inr h
    · rintro (rfl | h)
      · exact Or.inl rfl
      · by_cases ha : a = r
        · exact Or.inl ha
        · exact Or.inr ⟨h, ha⟩

theorem dedupFirst_nodup (l : List (List Value)) : (dedupFirst l).Nodup := by
  induction l with
  | nil => simp [dedupFirst]
  | cons r rs ih =>
    simp only [dedupFirst, List.nodup_cons]
    refine ⟨?_, ih.filter _⟩
    intro hmem
    have h2 := (List.mem_filter.mp hmem).2
    simp at h2

theorem toFinset_dedupFirst (l : List (List Value)) :
    (dedupFirst l).toFinset = l.toFinset := by
  ext a
  simp [mem_dedupFirst]

theorem length_dedupFirst (l : List (List Value)) :
    (dedupFirst l).length = l.toFinset.card := by
  rw [← toFinset_dedupFirst, List.toFinset_card_of_nodup (dedupFirst_nodup l)]

theorem length_dedupFirst_le (l : List (List Value)) :
    (dedupFirst l).length ≤ l.length := by
  induction l with
  | nil => simp [dedupFirst]
  | cons r rs ih =>
    simp only [dedupFirst, List.length_cons]
    exact Nat.succ_le_succ (le_trans (List.length_filter_le _ _) ih)

theorem dedupFirst_eq_self {l : List (List Value)} (h : l.Nodup) :
    dedupFirst l = l := by
  induction l with
  | nil => rfl
  | cons r rs ih =>
    simp only [dedupFirst]
    rw [ih (List.nodup_cons.mp h).2]
    congr 1
    apply List.filter_eq_self.mpr
    intro a ha
    simp only [decide_eq_true_eq]
    intro har
    exact (List.nodup_cons.mp h).1 (har ▸ ha)

theorem salesRow_length (cols : List String) (med : Value) (r : List Value) :
    (salesRow cols med r).length = r.length := by
  simp [salesRow, SALES_NUMERIC, SALES_CATEGORICAL, taRowFun, rowStep_length]

theorem invRow_length (cols : List String) (r : List Value) :
    (invRow cols r).length = r.length := by
  simp [invRow, INVENTORY_FILL, rowStep_length]

theorem cellOf_salesRow_orderdate {cols : List String} (med : Value)
    {r : List Value} (hod : "OrderDate" ∈ cols)
    (hlen : cols.length ≤ r.length) :
    cellOf cols (salesRow cols med r) "OrderDate" =
      toDatetime (cellOf cols r "OrderDate") := by
  simp only [salesRow, SALES_NUMERIC, SALES_CATEGORICAL, List.foldl_cons,
    List.foldl_nil, taRowFun]
  simp [cellOf_rowStep_ne, cellOf_rowStep_self, rowStep_length, hod, hlen]

theorem cellOf_salesRow_quantity {cols : List String} (med : Value)
    {r : List Value} (hq : "Quantity" ∈ cols)
    (hlen : cols.length ≤ r.length) :
    cellOf cols (salesRow cols med r) "Quantity" =
      fillna (.num 1) (toNumeric (cellOf cols r "Quantity")) := by
  simp only [salesRow, SALES_NUMERIC, SALES_CATEGORICAL, List.foldl_cons,
    List.foldl_nil, taRowFun]
  simp [cellOf_rowStep_ne, cellOf_rowStep_self, rowStep_length, hq, hlen]

theorem cellOf_salesRow_unitprice {cols : List String} (med : Value)
    {r : List Value} (hu : "UnitPrice" ∈ cols)
    (hlen : cols.length ≤ r.length) :
    cellOf cols (salesRow cols med r) "UnitPrice" =
      fillna med (toNumeric (cellOf cols r "UnitPrice")) := by
  simp only [salesRow, SALES_NUMERIC, SALES_CATEGORICAL, List.foldl_cons,
    List.foldl_nil, taRowFun]
  simp [cellOf_rowStep_ne, cellOf_rowStep_self, rowStep_length, hu, hlen]

theorem cellOf_salesRow_discount {cols : List String} (med : Value)
    {r : List Value} (hd : "Discount" ∈ cols)
    (hlen : cols.length ≤ r.length) :
    cellOf cols (salesRow cols med r) "Discount" =
      fillna (.num 0) (toNumeric (cellOf cols r "Discount")) := by
  simp only [salesRow, SALES_NUMERIC, SALES_CATEGORICAL, List.foldl_cons,
    List.foldl_nil, taRowFun]
  simp [cellOf_rowStep_ne, cellOf_rowStep_self, rowStep_length, hd, hlen]

theorem cellOf_salesRow_tax {cols : List String} (med : Value)
    {r : List Value} (ht : "Tax" ∈ cols)
    (hlen : cols.length ≤ r.length) :
    cellOf cols (salesRow cols med r) "Tax" =
      fillna (.num 0) (toNumeric (cellOf cols r "Tax")) := by
  simp only [salesRow, SALES_NUMERIC, SALES_CATEGORICAL, List.foldl_cons,
    List.foldl_nil, taRowFun]
  simp [cellOf_rowStep_ne, cellOf_rowStep_self, rowStep_length, ht, hlen]

theorem cellOf_salesRow_shippingcost {cols : List String} (med : Value)
    {r : List Value} (hs : "ShippingCost" ∈ cols)
    (hlen : cols.length ≤ r.length) :
    cellOf cols (salesRow cols med r) "ShippingCost" =
      fillna (.num 0) (toNumeric (cellOf cols r "ShippingCost")) := by
  simp only [salesRow, SALES_NUMERIC, SALES_CATEGORICAL, List.foldl_cons,
    List.foldl_nil, taRowFun]
  simp [cellOf_rowStep_ne, cellOf_rowStep_self, rowStep_length, hs, hlen]

theorem cellOf_salesRow_totalamount {cols : List String} (med : Value)
    {r : List Value} (hq : "Quantity" ∈ cols) (hu : "UnitPrice" ∈ cols)
    (ha : "TotalAmount" ∈ cols) (hlen : cols.length ≤ r.length) :
    cellOf cols (salesRow cols med r) "TotalAmount" =
      fillna
        (mulV (fillna (.num 1) (toNumeric (cellOf cols r "Quantity")))
              (fillna med (toNumeric (cellOf cols r "UnitPrice"))))
        (toNumeric (cellOf cols r "TotalAmount")) := by
  simp only [salesRow, SALES_NUMERIC, SALES_CATEGORICAL, List.foldl_cons,
    List.foldl_nil, taRowFun]
  simp [cellOf_rowStep_ne, cellOf_rowStep_self, rowStep_length,
    hq, hu, ha, hlen]

theorem cellOf_salesRow_cat {cols : List String} (med : Value)
    {r : List Value} {c : String} (hc : c ∈ SALES_CATEGORICAL)
    (hin : c ∈ cols) (hlen : cols.length ≤ r.length) :
    cellOf cols (salesRow cols med r) c =
      fillna (.str "Unknown") (cellOf cols r c) := by
  simp only [SALES_CATEGORICAL, List.mem_cons, List.mem_singleton,
    List.not_mem_nil, or_false] at hc
  rcases hc with rfl | rfl | rfl | rfl | rfl <;>
  · simp only [salesRow, SALES_NUMERIC, SALES_CATEGORICAL, List.foldl_cons,
      List.foldl_nil, taRowFun]
    simp [cellOf_rowStep_ne, cellOf_rowStep_self, rowStep_length, hin, hlen]

theorem cellOf_salesRow_other {cols : List String} (med : Value)
    (r : List Value) {c : String}
    (h : ¬ c ∈ ("OrderDate" :: SALES_NUMERIC ++ SALES_CATEGORICAL)) :
    cellOf cols (salesRow cols med r) c = cellOf cols r c := by
  simp only [SALES_NUMERIC, SALES_CATEGORICAL, List.cons_append,
    List.nil_append, List.mem_cons, List.mem_append, List.not_mem_nil,
    or_false] at h
  push_neg at h
  obtain ⟨h1, h2, h3, h4, h5, h6, h7, h8, h9, h10, h11, h12⟩ := h
  simp only [salesRow, SALES_NUMERIC, SALES_CATEGORICAL, List.foldl_cons,
    List.foldl_nil, taRowFun]
  simp [cellOf_rowStep_ne, h1, h2, h3, h4, h5, h6, h7, h8, h9, h10, h11, h12]

theorem cellOf_invRow_fill {cols : List String} {r : List Value} {c : String}
    (hc : c ∈ INVENTORY_FILL) (hin : c ∈ cols)
    (hlen : cols.length ≤ r.length) :
    cellOf cols (invRow cols r) c = fillna (.str "Unknown") (cellOf cols r c) := by
  simp only [INVENTORY_FILL, List.mem_cons, List.mem_singleton,
    List.not_mem_nil, or_false] at hc
  rcases hc with rfl | rfl | rfl | rfl <;>
  · simp only [invRow, INVENTORY_FILL, List.foldl_cons, List.foldl_nil]
    simp [cellOf_rowStep_ne, cellOf_rowStep_self, rowStep_length, hin, hlen]

theorem cellOf_invRow_other {cols : List String} (r : List Value) {c : String}
    (h : ¬ c ∈ INVENTORY_FILL) :
    cellOf cols (invRow cols r) c = cellOf cols r c := by
  simp only [INVENTORY_FILL, List.mem_cons, List.not_mem_nil, or_false] at h
  push_neg at h
  obtain ⟨h1, h2, h3, h4⟩ := h
  simp only [invRow, INVENTORY_FILL, List.foldl_cons, List.foldl_nil]
  simp [cellOf_rowStep_ne, h1, h2, h3, h4]

/-- The median fill computed inside the pipeline, in fused form. -/
theorem colMedian_fused {cols : List String} {rows' : List (List Value)}
    {g : List Value → List Value}
    (h : ∀ r ∈ rows', cellOf cols (g r) "UnitPrice"
        = toNumeric (cellOf cols r "UnitPrice")) :
    colMedian ⟨cols, rows'.map g⟩ "UnitPrice" =
      match median ((rows'.map fun r =>
          toNumeric (cellOf cols r "UnitPrice")).filterMap numPart) with
      | some q => .num q
      | none => .null := by
  have hv : colVals ⟨cols, rows'.map g⟩ "UnitPrice" =
      rows'.map fun r => toNumeric (cellOf cols r "UnitPrice") := by
    simp only [colVals, List.map_map]
    exact List.map_congr_left (fun r hr => h r hr)
  simp only [colMedian, colNums, hv]

/-- Closed form of the sales cleaning steps: deduplicate, then apply the
fused per-row transform with the run's median fill value. -/
theorem cleanSalesSteps_eq (t : Table) (hup : "UnitPrice" ∈ t.cols)
    (hWF : t.WF) :
    cleanSalesSteps t =
      ⟨t.cols, (dedupFirst t.rows).map (salesRow t.cols (medSalesVal t))⟩ := by
  obtain ⟨cols, rows⟩ := t
  have hWF' : ∀ r ∈ rows, r.length = cols.length := hWF
  have hcell : ∀ r ∈ dedupFirst rows,
      cellOf cols
        ((rowStep cols "Quantity" (fillna (.num 1)) ∘
          rowStep cols "TotalAmount" toNumeric ∘
          rowStep cols "ShippingCost" toNumeric ∘
          rowStep cols "Tax" toNumeric ∘
          rowStep cols "Discount" toNumeric ∘
          rowStep cols "UnitPrice" toNumeric ∘
          rowStep cols "Quantity" toNumeric ∘
          rowStep cols "OrderDate" toDatetime) r) "UnitPrice"
      = toNumeric (cellOf cols r "UnitPrice") := by
    intro r hr
    have hlen : cols.length ≤ r.length :=
      le_of_eq (hWF' r (mem_dedupFirst.mp hr)).symm
    simp only [Function.comp]
    simp [cellOf_rowStep_ne, cellOf_rowStep_self, rowStep_length, hup, hlen]
  simp only [cleanSalesSteps, fillCol, mapCol, fillTotalAmount,
    SALES_NUMERIC, SALES_CATEGORICAL, List.foldl_cons, List.foldl_nil,
    List.map_map]
  rw [colMedian_fused hcell]
  rfl

/-- Closed form of the inventory cleaning steps. -/
theorem cleanInventorySteps_eq (t : Table) :
    cleanInventorySteps t =
      ⟨t.cols, (dedupFirst t.rows).map (invRow t.cols)⟩ := by
  obtain ⟨cols, rows⟩ := t
  simp only [cleanInventorySteps, fillCol, mapCol, INVENTORY_FILL,
    List.foldl_cons, List.foldl_nil, List.map_map]
  rfl

/-- A value is a number or null (the shape of every coerced numeric cell). -/
def numOrNull (v : Value) : Prop :=
  (∃ q, v = .num q) ∨ v = .null

/-- A value is a date or null (the shape of every coerced OrderDate cell). -/
def dateOrNull (v : Value) : Prop :=
  (∃ y m d, v = .date y m d) ∨ v = .null

theorem toNumeric_numOrNull (v : Value) : numOrNull (toNumeric v) := by
  cases v with
  | str s =>
    simp only [toNumeric]
    cases parseRat s <;> simp [numOrNull]
  | _ => simp [toNumeric, numOrNull]

theorem toNumeric_of_numOrNull {v : Value} (h : numOrNull v) :
    toNumeric v = v := by
  rcases h with ⟨q, rfl⟩ | rfl <;> simp [toNumeric]

theorem toDatetime_dateOrNull (v : Value) : dateOrNull (toDatetime v) := by
  cases v with
  | str s =>
    simp only [toDatetime]
    repeat' split
    all_goals simp [dateOrNull]
  | _ => simp [toDatetime, dateOrNull]

theorem toDatetime_of_dateOrNull {v : Value} (h : dateOrNull v) :
    toDatetime v = v := by
  rcases h with ⟨y, m, d, rfl⟩ | rfl <;> simp [toDatetime]

theorem fillna_null (d : Value) : fillna d .null = d := by
  simp [fillna]

theorem fillna_of_ne_null {v : Value} (d : Value) (h : v ≠ .null) :
    fillna d v = v := by
  simp [fillna, h]

theorem fillna_ne_null {d : Value} (v : Value) (h : d ≠ .null) :
    fillna d v ≠ .null := by
  by_cases hv : v = .null
  · subst hv; simpa [fillna] using h
  · simpa [fillna, hv] using hv

theorem fillna_numOrNull {d v : Value} (hd : numOrNull d)
    (hv : numOrNull v) : numOrNull (fillna d v) := by
  by_cases h : v = .null
  · subst h; simpa [fillna] using hd
  · simpa [fillna, h] using hv

theorem mulV_null_right (x : Value) : mulV x .null = .null := by
  cases x <;> simp [mulV]

theorem mulV_num {a b : Frac} : mulV (.num a) (.num b) = .num (a * b) := rfl

theorem numPart_eq_none {v : Value} (h : numOrNull v) :
    numPart v = none ↔ v = .null := by
  rcases h with ⟨q, rfl⟩ | rfl <;> simp [numPart]

theorem median_nil : median ([] : List Frac) = none := rfl

theorem length_insertSorted (x : Frac) (l : List Frac) :
    (insertSorted x l).length = l.length + 1 := by
  induction l with
  | nil => rfl
  | cons y ys ih =>
    simp only [insertSorted]
    split
    · simp
    · simp [ih]

theorem length_sortRats (l : List Frac) : (sortRats l).length = l.length := by
  induction l with
  | nil => rfl
  | cons x xs ih => simp [sortRats, length_insertSorted, ih]

theorem median_isSome {xs : List Frac} (h : xs ≠ []) :
    ∃ q, median xs = some q := by
  unfold median
  have hlen : (sortRats xs).length = xs.length := length_sortRats xs
  set s := sortRats xs with hs
  have hn : s.length ≠ 0 := by
    rw [hlen]
    have := List.length_pos.mpr h
    omega
  simp only
  by_cases hodd : s.length % 2 = 1
  · rw [if_neg hn, if_pos hodd]
    have hlt : s.length / 2 < s.length := Nat.div_lt_self (Nat.pos_of_ne_zero hn) one_lt_two
    exact ⟨_, List.get?_eq_get hlt⟩
  · rw [if_neg hn]
    rw [if_neg hodd]
    have h2 : 2 ≤ s.length := by omega
    have hlt1 : s.length / 2 - 1 < s.length := by omega
    have hlt2 : s.length / 2 < s.length := by omega
    rw [List.get?_eq_get hlt1, List.get?_eq_get hlt2]
    exact ⟨_, rfl⟩

theorem missingCols_nil_iff {req cols : List String} :
    missingCols req cols = [] ↔ ∀ c ∈ req, c ∈ cols := by
  simp [missingCols, List.filter_eq_nil_iff]

theorem mem_missingCols {req cols : List String} {c : String} :
    c ∈ missingCols req cols ↔ c ∈ req ∧ ¬ c ∈ cols := by
  simp [missingCols, List.mem_filter]

theorem clean_sales_ok {t : Table}
    (hreq : ∀ c ∈ SALES_REQUIRED, c ∈ t.cols) :
    clean_sales t = .ok (cleanSalesSteps t) := by
  have h : missingCols SALES_REQUIRED t.cols = [] :=
    missingCols_nil_iff.mpr hreq
  simp [clean_sales, h]

theorem clean_sales_error {t : Table}
    (hmiss : ∃ c ∈ SALES_REQUIRED, ¬ c ∈ t.cols) :
    clean_sales t = .error (missingCols SALES_REQUIRED t.cols) := by
  have h : missingCols SALES_REQUIRED t.cols ≠ [] := by
    rcases hmiss with ⟨c, hc, hnc⟩
    intro he
    exact hnc (missingCols_nil_iff.mp he c hc)
  simp [clean_sales, h]

theorem clean_inventory_ok {t : Table}
    (hreq : ∀ c ∈ INVENTORY_REQUIRED, c ∈ t.cols) :
    clean_inventory t = .ok (cleanInventorySteps t) := by
  have h : missingCols INVENTORY_REQUIRED t.cols = [] :=
    missingCols_nil_iff.mpr hreq
  simp [clean_inventory, h]

theorem clean_inventory_error {t : Table}
    (hmiss : ∃ c ∈ INVENTORY_REQUIRED, ¬ c ∈ t.cols) :
    clean_inventory t = .error (missingCols INVENTORY_REQUIRED t.cols) := by
  have h : missingCols INVENTORY_REQUIRED t.cols ≠ [] := by
    rcases hmiss with ⟨c, hc, hnc⟩
    intro he
    exact hnc (missingCols_nil_iff.mp he c hc)
  simp [clean_inventory, h]

theorem clean_sales_ok_inv {t u : Table} (h : clean_sales t = .ok u) :
    u = cleanSalesSteps t ∧ ∀ c ∈ SALES_REQUIRED, c ∈ t.cols := by
  by_cases hm : missingCols SALES_REQUIRED t.cols = []
  · constructor
    · simp [clean_sales, hm] at h
      exact h.symm
    · exact missingCols_nil_iff.mp hm
  · simp [clean_sales, hm] at h

theorem getD_map_row (g : List Value → List Value)
    {rows' : List (List Value)} {k : Nat} (hk : k < rows'.length) :
    (rows'.map g).getD k [] = g (rows'.getD k []) := by
  rw [List.getD_eq_getElem _ _ (by simpa using hk),
    List.getD_eq_getElem _ _ hk, List.getElem_map]

theorem getD_mem_row {rows' : List (List Value)} {k : Nat}
    (hk : k < rows'.length) : rows'.getD k [] ∈ rows' := by
  rw [List.getD_eq_getElem _ _ hk]
  exact List.getElem_mem _

theorem cleanSalesSteps_rows_length (t : Table) :
    (cleanSalesSteps t).rows.length = (dedupFirst t.rows).length := by
  simp [cleanSalesSteps, fillCol, mapCol, fillTotalAmount,
    SALES_NUMERIC, SALES_CATEGORICAL]

theorem cleanInventorySteps_rows_length (t : Table) :
    (cleanInventorySteps t).rows.length = (dedupFirst t.rows).length := by
  simp [cleanInventorySteps, fillCol, mapCol, INVENTORY_FILL]

/-- The pipeline median fill is null exactly when every (deduplicated)
UnitPrice value fails numeric coercion. -/
theorem medSalesVal_null_iff (t : Table) :
    medSalesVal t = .null ↔
      ∀ r ∈ dedupFirst t.rows,
        toNumeric (cellOf t.cols r "UnitPrice") = .null := by
  constructor
  · intro h r hr
    simp only [medSalesVal] at h
    rcases hmm : median (((dedupFirst t.rows).map
        fun r => toNumeric (cellOf t.cols r "UnitPrice")).filterMap numPart)
      with _ | q
    · have hnil : ((dedupFirst t.rows).map
          fun r => toNumeric (cellOf t.cols r "UnitPrice")).filterMap numPart
          = [] := by
        by_contra hne
        rcases median_isSome hne with ⟨q, hq⟩
        rw [hq] at hmm
        exact Option.noConfusion hmm
      have hall := List.filterMap_eq_nil.mp hnil
      have hr' := hall _ (List.mem_map_of_mem _ hr)
      exact (numPart_eq_none (toNumeric_numOrNull _)).mp hr'
    · rw [hmm] at h
      exact absurd h (by simp)
  · intro h
    have hnil : ((dedupFirst t.rows).map
        fun r => toNumeric (cellOf t.cols r "UnitPrice")).filterMap numPart
        = [] := by
      apply List.filterMap_eq_nil.mpr
      intro v hv
      rcases List.mem_map.mp hv with ⟨r, hr, rfl⟩
      rw [h r hr]
      rfl
    simp [medSalesVal, hnil, median_nil]

/-- If some UnitPrice value coerces to a number, the pipeline median fill
is a number. -/
theorem medSalesVal_num (t : Table)
    (h : ∃ r ∈ t.rows, toNumeric (cellOf t.cols r "UnitPrice") ≠ .null) :
    ∃ q, medSalesVal t = .num q := by
  rcases h with ⟨r, hr, hne⟩
  have hD : r ∈ dedupFirst t.rows := mem_dedupFirst.mpr hr
  have hnonnil : ((dedupFirst t.rows).map
      fun r => toNumeric (cellOf t.cols r "UnitPrice")).filterMap numPart
      ≠ [] := by
    intro hnil
    exact hne ((numPart_eq_none (toNumeric_numOrNull _)).mp
      (List.filterMap_eq_nil.mp hnil _ (List.mem_map_of_mem _ hD)))
  rcases median_isSome hnonnil with ⟨q, hq⟩
  refine ⟨q, ?_⟩
  unfold medSalesVal
  rw [hq]

/-- Every cell of a cleaned sales UnitPrice column is null when the median
was undefined, a number otherwise. -/
theorem colMedian_null {t : Table} {c : String}
    (h : ∀ r ∈ t.rows, cellOf t.cols r c = .null) :
    colMedian t c = .null := by
  have hnil : colNums t c = [] := by
    apply List.filterMap_eq_nil.mpr
    intro v hv
    rcases List.mem_map.mp hv with ⟨r, hr, rfl⟩
    rw [h r hr]
    rfl
  simp [colMedian, hnil, median_nil]

/-!
## Shared characterization of a cleaned sales row
-/

/-- Cell-by-cell description of row `k` of the cleaned sales table in terms
of row `k` of the deduplicated input. -/
theorem cleanSales_cells (t : Table)
    (hreq : ∀ c ∈ SALES_REQUIRED, c ∈ t.cols) (hWF : t.WF)
    {k : Nat} (hk : k < (dedupFirst t.rows).length) :
    (cellOf t.cols ((cleanSalesSteps t).rows.getD k []) "OrderDate" =
      toDatetime (cellOf t.cols ((dedupFirst t.rows).getD k []) "OrderDate"))
    ∧ (cellOf t.cols ((cleanSalesSteps t).rows.getD k []) "Quantity" =
      fillna (.num 1)
        (toNumeric (cellOf t.cols ((dedupFirst t.rows).getD k []) "Quantity")))
    ∧ (cellOf t.cols ((cleanSalesSteps t).rows.getD k []) "UnitPrice" =
      fillna (medSalesVal t)
        (toNumeric (cellOf t.cols ((dedupFirst t.rows).getD k []) "UnitPrice")))
    ∧ (cellOf t.cols ((cleanSalesSteps t).rows.getD k []) "Discount" =
      fillna (.num 0)
        (toNumeric (cellOf t.cols ((dedupFirst t.rows).getD k []) "Discount")))
    ∧ (cellOf t.cols ((cleanSalesSteps t).rows.getD k []) "Tax" =
      fillna (.num 0)
        (toNumeric (cellOf t.cols ((dedupFirst t.rows).getD k []) "Tax")))
    ∧ (cellOf t.cols ((cleanSalesSteps t).rows.getD k []) "ShippingCost" =
      fillna (.num 0)
        (toNumeric (cellOf t.cols ((dedupFirst t.rows).getD k []) "ShippingCost")))
    ∧ (cellOf t.cols ((cleanSalesSteps t).rows.getD k []) "TotalAmount" =
      fillna
        (mulV
          (fillna (.num 1)
            (toNumeric (cellOf t.cols ((dedupFirst t.rows).getD k []) "Quantity")))
          (fillna (medSalesVal t)
            (toNumeric (cellOf t.cols ((dedupFirst t.rows).getD k []) "UnitPrice"))))
        (toNumeric (cellOf t.cols ((dedupFirst t.rows).getD k []) "TotalAmount")))
    ∧ (∀ c ∈ SALES_CATEGORICAL,
      cellOf t.cols ((cleanSalesSteps t).rows.getD k []) c =
        fillna (.str "Unknown")
          (cellOf t.cols ((dedupFirst t.rows).getD k []) c))
    ∧ (∀ c, ¬ c ∈ ("OrderDate" :: SALES_NUMERIC ++ SALES_CATEGORICAL) →
      cellOf t.cols ((cleanSalesSteps t).rows.getD k []) c =
        cellOf t.cols ((dedupFirst t.rows).getD k []) c) := by
  have hrows : (cleanSalesSteps t).rows =
      (dedupFirst t.rows).map (salesRow t.cols (medSalesVal t)) := by
    rw [cleanSalesSteps_eq t (hreq _ (by decide)) hWF]
  have hr : (cleanSalesSteps t).rows.getD k [] =
      salesRow t.cols (medSalesVal t) ((dedupFirst t.rows).getD k []) := by
    rw [hrows]
    exact getD_map_row _ hk
  have hmem : (dedupFirst t.rows).getD k [] ∈ t.rows :=
    mem_dedupFirst.mp (getD_mem_row hk)
  have hlen : t.cols.length ≤ ((dedupFirst t.rows).getD k []).length :=
    le_of_eq (hWF _ hmem).symm
  rw [hr]
  refine ⟨cellOf_salesRow_orderdate _ (hreq _ (by decide)) hlen,
    cellOf_salesRow_quantity _ (hreq _ (by decide)) hlen,
    cellOf_salesRow_unitprice _ (hreq _ (by decide)) hlen,
    cellOf_salesRow_discount _ (hreq _ (by decide)) hlen,
    cellOf_salesRow_tax _ (hreq _ (by decide)) hlen,
    cellOf_salesRow_shippingcost _ (hreq _ (by decide)) hlen,
    cellOf_salesRow_totalamount _ (hreq _ (by decide)) (hreq _ (by decide))
      (hreq _ (by decide)) hlen,
    ?_, ?_⟩
  · intro c hc
    have hcr : c ∈ SALES_REQUIRED := by
      rcases (by simpa [SALES_CATEGORICAL] using hc :
          c = "PaymentMethod" ∨ c = "OrderStatus" ∨ c = "City" ∨
          c = "State" ∨ c = "Country") with rfl | rfl | rfl | rfl | rfl <;>
        decide
    exact cellOf_salesRow_cat _ hc (hreq _ hcr) hlen
  · intro c hc
    exact cellOf_salesRow_other _ _ hc

theorem fillna_num_toNumeric (a : Frac) (v : Value) :
    ∃ q, fillna (.num a) (toNumeric v) = .num q := by
  rcases toNumeric_numOrNull v with ⟨q, hq⟩ | hq <;> rw [hq]
  · exact ⟨q, fillna_of_ne_null _ (by simp)⟩
  · exact ⟨a, fillna_null _⟩

theorem clean_inventory_ok_inv {t u : Table}
    (h : clean_inventory t = .ok u) :
    u = cleanInventorySteps t ∧ ∀ c ∈ INVENTORY_REQUIRED, c ∈ t.cols := by
  by_cases hm : missingCols INVENTORY_REQUIRED t.cols = []
  · constructor
    · simp [clean_inventory, hm] at h
      exact h.symm
    · exact missingCols_nil_iff.mp hm
  · simp [clean_inventory, hm] at h

theorem fillna_eq_null_iff {d v : Value} :
    fillna d v = .null ↔ v = .null ∧ d = .null := by
  by_cases h : v = .null
  · subst h; simp [fillna]
  · simp [fillna, h]

theorem mulV_numOrNull (a b : Value) : numOrNull (mulV a b) := by
  cases a <;> cases b <;> simp [mulV, numOrNull]

theorem medSalesVal_numOrNull (t : Table) : numOrNull (medSalesVal t) := by
  unfold medSalesVal
  cases median (((dedupFirst t.rows).map
      fun r => toNumeric (cellOf t.cols r "UnitPrice")).filterMap numPart) <;>
    simp [numOrNull]

/-- A column map that changes no cell is the identity on the table. -/
theorem mapCol_eq_self {t : Table} {c : String} {f : Value → Value}
    (h : ∀ r ∈ t.rows, f (cellOf t.cols r c) = cellOf t.cols r c) :
    mapCol t c f = t := by
  obtain ⟨cols, rows⟩ := t
  simp only [mapCol]
  congr 1
  exact (List.map_congr_left fun r hr =>
    rowStep_eq_self (h r hr)).trans (List.map_id rows)

/-- The TotalAmount fill is the identity when every null TotalAmount cell
has a null row product. -/
theorem fillTotalAmount_eq_self {t : Table}
    (h : ∀ r ∈ t.rows,
      fillna (mulV (cellOf t.cols r "Quantity") (cellOf t.cols r "UnitPrice"))
        (cellOf t.cols r "TotalAmount") = cellOf t.cols r "TotalAmount") :
    fillTotalAmount t = t := by
  obtain ⟨cols, rows⟩ := t
  simp only [fillTotalAmount, taRowFun]
  congr 1
  exact (List.map_congr_left fun r hr =>
    rowStep_eq_self (h r hr)).trans (List.map_id rows)

/-!
## Orchestrator lemmas
-/

theorem find?_key_filter {l : List (String × FileData)} {p q : String}
    (hq : ¬ q = p) :
    (l.filter (fun e => ¬ (e.1 = p))).find? (fun e => e.1 = q) =
      l.find? (fun e => e.1 = q) := by
  induction l with
  | nil => rfl
  | cons e l ih =>
    by_cases he : e.1 = p
    · have heq : ¬ e.1 = q := fun h => hq (h.symm.trans he)
      rw [List.filter_cons_of_neg (by simpa using he),
        List.find?_cons_of_neg _ (by simpa using heq), ih]
    · by_cases heq : e.1 = q
      · rw [List.filter_cons_of_pos (by simpa using he),
          List.find?_cons_of_pos _ (by simpa using heq),
          List.find?_cons_of_pos _ (by simpa using heq)]
      · rw [List.filter_cons_of_pos (by simpa using he),
          List.find?_cons_of_neg _ (by simpa using heq),
          List.find?_cons_of_neg _ (by simpa using heq), ih]

theorem FS.read_writeFile {fs fs' : FS} {p : String} {c : Table}
    (h : fs.writeFile p c = some fs') :
    fs'.badWrites = fs.badWrites
    ∧ ∀ q, ¬ q = p → fs'.read q = fs.read q := by
  unfold FS.writeFile at h
  split at h
  · exact absurd h (by simp)
  · cases h
    refine ⟨rfl, ?_⟩
    intro q hq
    show ((( p, FileData.table c) ::
        fs.files.filter (fun e => ¬ (e.1 = p))).find?
          (fun e => e.1 = q)).map (·.2) = _
    rw [List.find?_cons_of_neg _ (by simpa using fun h => hq h.symm)]
    rw [find?_key_filter hq]
    rfl

theorem salesStep_fs (today : String) (fs : FS) :
    (salesStep today fs).2.badWrites = fs.badWrites
    ∧ ∀ q, ¬ q = salesProcessedPath → ¬ q = salesDailyPath today →
        (salesStep today fs).2.read q = fs.read q := by
  unfold salesStep
  split
  · exact ⟨rfl, fun q _ _ => rfl⟩
  · exact ⟨rfl, fun q _ _ => rfl⟩
  · split
    · exact ⟨rfl, fun q _ _ => rfl⟩
    · split
      · exact ⟨rfl, fun q _ _ => rfl⟩
      · rename_i fs1 h3
        obtain ⟨hb1, hr1⟩ := FS.read_writeFile h3
        split
        · exact ⟨hb1, fun q hq1 _ => hr1 q hq1⟩
        · rename_i fs2 h4
          obtain ⟨hb2, hr2⟩ := FS.read_writeFile h4
          exact ⟨hb2.trans hb1,
            fun q hq1 hq2 => (hr2 q hq2).trans (hr1 q hq1)⟩

theorem invStep_msgs (today : String) {fs fs' : FS}
    (hr : fs'.read invRawPath = fs.read invRawPath)
    (hb : fs'.badWrites = fs.badWrites) :
    (invStep today fs').1 = (invStep today fs).1 := by
  unfold invStep
  rw [hr]
  split
  · rfl
  · rfl
  · split
    · rfl
    · unfold FS.writeFile
      rw [hb]
      by_cases h3 : invProcessedPath ∈ fs.badWrites
      · simp [h3]
      · by_cases h4 : invDailyPath today ∈ fs.badWrites
        · simp [h3, h4]
        · simp [h3, h4]

theorem salesStep_reported (today : String) (fs : FS) :
    Msg.salesCleanedSaved ∈ (salesStep today fs).1
    ∨ Msg.salesError ∈ (salesStep today fs).1 := by
  unfold salesStep
  split
  · right; simp
  · right; simp
  · split
    · right; simp
    · split
      · right; simp
      · split
        · right; simp
        · left; simp

theorem invStep_reported (today : String) (fs : FS) :
    Msg.invCleanedSaved ∈ (invStep today fs).1
    ∨ Msg.invError ∈ (invStep today fs).1
    ∨ Msg.invSkipped ∈ (invStep today fs).1 := by
  unfold invStep
  split
  · right; right; simp
  · right; left; simp
  · split
    · right; left; simp
    · split
      · right; left; simp
      · split
        · right; left; simp
        · left; simp

theorem salesDailyPath_length (today : String) :
    (salesDailyPath today).length = today.length + 36 := by
  have d1 : DAILY_DIR.length = 17 := by decide
  have d2 : ("/" : String).length = 1 := by decide
  have d3 : ("/sales_cleaned.csv" : String).length = 18 := by decide
  simp only [salesDailyPath, String.length_append, d1, d2, d3]
  omega

theorem invDailyPath_length (today : String) :
    (invDailyPath today).length = today.length + 40 := by
  have d1 : DAILY_DIR.length = 17 := by decide
  have d2 : ("/" : String).length = 1 := by decide
  have d3 : ("/inventory_cleaned.csv" : String).length = 22 := by decide
  simp only [invDailyPath, String.length_append, d1, d2, d3]
  omega

theorem invRaw_ne_salesDaily (today : String) :
    ¬ invRawPath = salesDailyPath today := by
  intro he
  have hlen := congrArg String.length he
  have h1 : invRawPath.length = 27 := by decide
  rw [h1, salesDailyPath_length] at hlen
  omega

theorem invProc_ne_salesDaily (today : String) :
    ¬ invProcessedPath = salesDailyPath today := by
  intro he
  have hd := congrArg (fun s => s.data[5]?) he
  simp only at hd
  have h1 : invProcessedPath.data[5]? = some 'p' := by decide
  have h2 : (salesDailyPath today).data[5]? = some 'd' := by
    show (DAILY_DIR ++ "/" ++ today ++ "/sales_cleaned.csv").data[5]? = some 'd'
    rw [String.data_append, String.data_append, String.data_append]
    rw [List.getElem?_append_left (by
      rw [List.length_append]
      have h18 : (DAILY_DIR.data ++ ("/" : String).data).length = 18 := by
        decide
      omega)]
    rw [List.getElem?_append_left (by decide)]
    decide
  rw [h1, h2] at hd
  exact absurd hd (by decide)

theorem invDaily_ne_salesProc (today : String) :
    ¬ invDailyPath today = salesProcessedPath := by
  intro he
  have hlen := congrArg String.length he
  have h1 : salesProcessedPath.length = 32 := by decide
  rw [h1] at hlen
  rw [invDailyPath_length] at hlen
  omega

theorem invDaily_ne_salesDaily (today : String) :
    ¬ invDailyPath today = salesDailyPath today := by
  intro he
  have hlen := congrArg String.length he
  rw [invDailyPath_length, salesDailyPath_length] at hlen
  omega

/-- The messages of a run decompose into the sales block's messages, the
inventory block's messages computed on the original filesystem (the sales
outcome cannot change them), and the completion line. -/
theorem main_msgs_decompose (today : String) (fs : FS) :
    (main today fs).1 = (salesStep today fs).1 ++ (invStep today fs).1
      ++ [Msg.ingestionCompleted] := by
  obtain ⟨hb, hr⟩ := salesStep_fs today fs
  have hinv : (invStep today (salesStep today fs).2).1
      = (invStep today fs).1 :=
    invStep_msgs today
      (hr invRawPath (by decide) (invRaw_ne_salesDaily today)) hb
  show (salesStep today fs).1 ++ (invStep today (salesStep today fs).2).1
      ++ [Msg.ingestionCompleted] = _
  rw [hinv]

/-!
## Claim theorems
-/

/-- C3: a transform fails with a validation error naming exactly the set of
missing required columns when a required column is absent, and does not fail
with a validation error otherwise — for both the sales and the inventory
transform. -/
theorem clean_validation_missing_columns (t : Table) :
    ((∃ c ∈ SALES_REQUIRED, ¬ c ∈ t.cols) →
      clean_sales t = .error (missingCols SALES_REQUIRED t.cols)
      ∧ missingCols SALES_REQUIRED t.cols ≠ []
      ∧ ∀ c, c ∈ missingCols SALES_REQUIRED t.cols ↔
          c ∈ SALES_REQUIRED ∧ ¬ c ∈ t.cols)
    ∧ ((∀ c ∈ SALES_REQUIRED, c ∈ t.cols) →
      clean_sales t = .ok (cleanSalesSteps t))
    ∧ ((∃ c ∈ INVENTORY_REQUIRED, ¬ c ∈ t.cols) →
      clean_inventory t = .error (missingCols INVENTORY_REQUIRED t.cols)
      ∧ missingCols INVENTORY_REQUIRED t.cols ≠ []
      ∧ ∀ c, c ∈ missingCols INVENTORY_REQUIRED t.cols ↔
          c ∈ INVENTORY_REQUIRED ∧ ¬ c ∈ t.cols)
    ∧ ((∀ c ∈ INVENTORY_REQUIRED, c ∈ t.cols) →
      clean_inventory t = .ok (cleanInventorySteps t)) := by
  refine ⟨fun hmiss => ⟨clean_sales_error hmiss, ?_, fun c => mem_missingCols⟩,
    fun hreq => clean_sales_ok hreq,
    fun hmiss => ⟨clean_inventory_error hmiss, ?_, fun c => mem_missingCols⟩,
    fun hreq => clean_inventory_ok hreq⟩
  · rcases hmiss with ⟨c, hc, hnc⟩
    intro he
    exact hnc (missingCols_nil_iff.mp he c hc)
  · rcases hmiss with ⟨c, hc, hnc⟩
    intro he
    exact hnc (missingCols_nil_iff.mp he c hc)

/-- C3 witness: validation at concrete tables — a sales table with only
OrderID present yields an error naming the other fourteen columns, the
example tables pass validation. -/
theorem clean_validation_missing_columns_witness :
    clean_sales (Table.mk ["OrderID"] []) =
      .error ["OrderDate", "CustomerID", "ProductID", "Quantity",
        "UnitPrice", "Discount", "Tax", "ShippingCost", "TotalAmount",
        "PaymentMethod", "OrderStatus", "City", "State", "Country"]
    ∧ clean_sales exSales = .ok (cleanSalesSteps exSales)
    ∧ clean_inventory exInv = .ok (cleanInventorySteps exInv) :=
  ⟨((clean_validation_missing_columns (Table.mk ["OrderID"] [])).1
      ⟨"OrderDate", by decide, by decide⟩).1,
   (clean_validation_missing_columns exSales).2.1 (by decide),
   (clean_validation_missing_columns exInv).2.2.2 (by decide)⟩

/-- C4: for inputs with all required columns, the cleaned output's row count
is at most the input row count and equals the input's distinct-row count —
for both transforms. -/
theorem clean_row_count (t : Table) :
    ((∀ c ∈ SALES_REQUIRED, c ∈ t.cols) →
      ∀ u, clean_sales t = .ok u →
        u.rows.length ≤ t.rows.length
        ∧ u.rows.length = t.rows.toFinset.card)
    ∧ ((∀ c ∈ INVENTORY_REQUIRED, c ∈ t.cols) →
      ∀ u, clean_inventory t = .ok u →
        u.rows.length ≤ t.rows.length
        ∧ u.rows.length = t.rows.toFinset.card) := by
  constructor
  · intro _ u hok
    rw [(clean_sales_ok_inv hok).1, cleanSalesSteps_rows_length]
    exact ⟨length_dedupFirst_le _, length_dedupFirst _⟩
  · intro _ u hok
    rw [(clean_inventory_ok_inv hok).1, cleanInventorySteps_rows_length]
    exact ⟨length_dedupFirst_le _, length_dedupFirst _⟩

/-- C4 witness: the duplicate-free count of the two-row duplicate inventory
example is 2. -/
theorem clean_row_count_witness :
    (cleanInventorySteps exInv).rows.length ≤ exInv.rows.length
    ∧ (cleanInventorySteps exInv).rows.length = exInv.rows.toFinset.card :=
  (clean_row_count exInv).2 (by decide) (cleanInventorySteps exInv) (by decide)

/-- C6: for every valid sales input, the transform succeeds, preserves the
column list, and applies exactly the documented per-column coercions and
fill rules to the deduplicated rows: OrderDate date-coerced with nulls left
in place, the six numeric columns numerically coerced, null Quantity → 1,
null UnitPrice → pre-fill column median, null Discount/Tax/ShippingCost → 0,
null TotalAmount → filled Quantity × filled UnitPrice, nulls of the five
categorical columns → "Unknown", all other columns unchanged. -/
theorem clean_sales_fill_rules (t : Table)
    (hreq : ∀ c ∈ SALES_REQUIRED, c ∈ t.cols) (hWF : t.WF) :
    clean_sales t = .ok (cleanSalesSteps t)
    ∧ (cleanSalesSteps t).cols = t.cols
    ∧ (cleanSalesSteps t).rows.length = (dedupFirst t.rows).length
    ∧ ∀ k, k < (dedupFirst t.rows).length →
      (cellOf t.cols ((cleanSalesSteps t).rows.getD k []) "OrderDate" =
        toDatetime (cellOf t.cols ((dedupFirst t.rows).getD k []) "OrderDate"))
      ∧ (cellOf t.cols ((cleanSalesSteps t).rows.getD k []) "Quantity" =
        fillna (.num 1)
          (toNumeric (cellOf t.cols ((dedupFirst t.rows).getD k []) "Quantity")))
      ∧ (cellOf t.cols ((cleanSalesSteps t).rows.getD k []) "UnitPrice" =
        fillna (medSalesVal t)
          (toNumeric (cellOf t.cols ((dedupFirst t.rows).getD k []) "UnitPrice")))
      ∧ (cellOf t.cols ((cleanSalesSteps t).rows.getD k []) "Discount" =
        fillna (.num 0)
          (toNumeric (cellOf t.cols ((dedupFirst t.rows).getD k []) "Discount")))
      ∧ (cellOf t.cols ((cleanSalesSteps t).rows.getD k []) "Tax" =
        fillna (.num 0)
          (toNumeric (cellOf t.cols ((dedupFirst t.rows).getD k []) "Tax")))
      ∧ (cellOf t.cols ((cleanSalesSteps t).rows.getD k []) "ShippingCost" =
        fillna (.num 0)
          (toNumeric (cellOf t.cols ((dedupFirst t.rows).getD k []) "ShippingCost")))
      ∧ (cellOf t.cols ((cleanSalesSteps t).rows.getD k []) "TotalAmount" =
        fillna
          (mulV
            (fillna (.num 1)
              (toNumeric (cellOf t.cols ((dedupFirst t.rows).getD k []) "Quantity")))
            (fillna (medSalesVal t)
              (toNumeric (cellOf t.cols ((dedupFirst t.rows).getD k []) "UnitPrice"))))
          (toNumeric (cellOf t.cols ((dedupFirst t.rows).getD k []) "TotalAmount")))
      ∧ (∀ c ∈ SALES_CATEGORICAL,
        cellOf t.cols ((cleanSalesSteps t).rows.getD k []) c =
          fillna (.str "Unknown")
            (cellOf t.cols ((dedupFirst t.rows).getD k []) c))
      ∧ (∀ c, ¬ c ∈ ("OrderDate" :: SALES_NUMERIC ++ SALES_CATEGORICAL) →
        cellOf t.cols ((cleanSalesSteps t).rows.getD k []) c =
          cellOf t.cols ((dedupFirst t.rows).getD k []) c) := by
  refine ⟨clean_sales_ok hreq, ?_, cleanSalesSteps_rows_length t,
    fun k hk => cleanSales_cells t hreq hWF hk⟩
  rw [cleanSalesSteps_eq t (hreq _ (by decide)) hWF]

/-- C6 witness: the fill rules instantiated at the example table's row 0
for the Quantity and UnitPrice columns. -/
theorem clean_sales_fill_rules_witness :
    (cellOf exSales.cols ((cleanSalesSteps exSales).rows.getD 0 []) "Quantity"
      = fillna (.num 1) (toNumeric
          (cellOf exSales.cols ((dedupFirst exSales.rows).getD 0 []) "Quantity")))
    ∧ (cellOf exSales.cols ((cleanSalesSteps exSales).rows.getD 0 []) "UnitPrice"
      = fillna (medSalesVal exSales) (toNumeric
          (cellOf exSales.cols ((dedupFirst exSales.rows).getD 0 []) "UnitPrice"))) :=
  ⟨((clean_sales_fill_rules exSales (by decide) (by decide)).2.2.2 0
      (by decide)).2.1,
   ((clean_sales_fill_rules exSales (by decide) (by decide)).2.2.2 0
      (by decide)).2.2.1⟩

/-- C7: the spec's worked scenario: a row with Quantity `""`, UnitPrice
`"10"` and TotalAmount `""` comes out with Quantity 1 and TotalAmount 10. -/
theorem clean_sales_scenario_empty_quantity :
    clean_sales exSales = .ok (cleanSalesSteps exSales)
    ∧ cellOf exSales.cols ((cleanSalesSteps exSales).rows.getD 0 [])
        "Quantity" = .num 1
    ∧ cellOf exSales.cols ((cleanSalesSteps exSales).rows.getD 0 [])
        "TotalAmount" = .num 10 := by
  decide

/-- C2: any output row whose TotalAmount was null after numeric coercion
carries the product of that row's filled Quantity and filled UnitPrice. -/
theorem clean_sales_totalamount_fill (t : Table)
    (hreq : ∀ c ∈ SALES_REQUIRED, c ∈ t.cols) (hWF : t.WF)
    (u : Table) (hok : clean_sales t = .ok u)
    (k : Nat) (hk : k < u.rows.length)
    (hnull : toNumeric
      (cellOf t.cols ((dedupFirst t.rows).getD k []) "TotalAmount") = .null) :
    cellOf t.cols (u.rows.getD k []) "TotalAmount" =
      mulV (cellOf t.cols (u.rows.getD k []) "Quantity")
           (cellOf t.cols (u.rows.getD k []) "UnitPrice") := by
  have hu : u = cleanSalesSteps t := (clean_sales_ok_inv hok).1
  subst hu
  have hk' : k < (dedupFirst t.rows).length := by
    rwa [cleanSalesSteps_rows_length] at hk
  obtain ⟨_, hQ, hU, _, _, _, hTA, _, _⟩ := cleanSales_cells t hreq hWF hk'
  rw [hTA, hQ, hU, hnull, fillna_null]

/-- C2 witness: the TotalAmount fill at row 0 of the example table. -/
theorem clean_sales_totalamount_fill_witness :
    cellOf exSales.cols ((cleanSalesSteps exSales).rows.getD 0 [])
        "TotalAmount" =
      mulV (cellOf exSales.cols ((cleanSalesSteps exSales).rows.getD 0 [])
              "Quantity")
           (cellOf exSales.cols ((cleanSalesSteps exSales).rows.getD 0 [])
              "UnitPrice") :=
  clean_sales_totalamount_fill exSales (by decide) (by decide)
    (cleanSalesSteps exSales) (by decide) 0 (by decide) (by decide)

/-- C10: when every UnitPrice value fails numeric coercion, the transform
still succeeds, the median fill is null (undefined), every output UnitPrice
stays null, and every row whose TotalAmount was null after coercion keeps a
null TotalAmount. -/
theorem clean_sales_all_null_unitprice (t : Table)
    (hreq : ∀ c ∈ SALES_REQUIRED, c ∈ t.cols) (hWF : t.WF)
    (hnull : ∀ r ∈ t.rows,
      toNumeric (cellOf t.cols r "UnitPrice") = .null) :
    clean_sales t = .ok (cleanSalesSteps t)
    ∧ medSalesVal t = .null
    ∧ (∀ r ∈ (cleanSalesSteps t).rows, cellOf t.cols r "UnitPrice" = .null)
    ∧ ∀ k, k < (dedupFirst t.rows).length →
      toNumeric
        (cellOf t.cols ((dedupFirst t.rows).getD k []) "TotalAmount") = .null →
      cellOf t.cols ((cleanSalesSteps t).rows.getD k []) "TotalAmount" =
        .null := by
  have hmed : medSalesVal t = .null :=
    (medSalesVal_null_iff t).mpr (fun r hr => hnull r (mem_dedupFirst.mp hr))
  refine ⟨clean_sales_ok hreq, hmed, ?_, ?_⟩
  · intro r hr
    rw [cleanSalesSteps_eq t (hreq _ (by decide)) hWF] at hr
    rcases List.mem_map.mp hr with ⟨r0, hr0, rfl⟩
    have hlen : t.cols.length ≤ r0.length :=
      le_of_eq (hWF _ (mem_dedupFirst.mp hr0)).symm
    rw [cellOf_salesRow_unitprice _ (hreq _ (by decide)) hlen,
      hnull _ (mem_dedupFirst.mp hr0), hmed, fillna_null]
  · intro k hk hTA0
    obtain ⟨_, _, _, _, _, _, hTA, _, _⟩ := cleanSales_cells t hreq hWF hk
    rw [hTA, hTA0, hmed, hnull _ (mem_dedupFirst.mp (getD_mem_row hk)),
      fillna_null, fillna_null, mulV_null_right]

/-- C10 witness: the all-null-UnitPrice behaviour at the concrete example
table whose only UnitPrice entry is the empty string. -/
theorem clean_sales_all_null_unitprice_witness :
    clean_sales exSalesNullUP = .ok (cleanSalesSteps exSalesNullUP)
    ∧ medSalesVal exSalesNullUP = .null :=
  ⟨(clean_sales_all_null_unitprice exSalesNullUP (by decide) (by decide)
      (by decide)).1,
   (clean_sales_all_null_unitprice exSalesNullUP (by decide) (by decide)
      (by decide)).2.1⟩

/-- C1 counterexample: on a valid sales table whose single UnitPrice value
is unparsable, the transform succeeds but row 0 of the output has a null
UnitPrice — one of the eleven columns the claim requires to be non-null. -/
theorem clean_sales_no_nulls_counterexample :
    clean_sales exSalesNullUP = .ok (cleanSalesSteps exSalesNullUP)
    ∧ (cleanSalesSteps exSalesNullUP).rows.getD 0 []
        ∈ (cleanSalesSteps exSalesNullUP).rows
    ∧ "UnitPrice" ∈ SALES_NUMERIC ++ SALES_CATEGORICAL
    ∧ cellOf exSalesNullUP.cols
        ((cleanSalesSteps exSalesNullUP).rows.getD 0 []) "UnitPrice" =
        .null := by
  decide

/-- C1 (amended): if at least one UnitPrice value coerces to a number, the
cleaned sales table has no nulls in the six numeric and five categorical
columns. -/
theorem clean_sales_no_nulls_of_median_defined (t : Table)
    (hreq : ∀ c ∈ SALES_REQUIRED, c ∈ t.cols) (hWF : t.WF)
    (hsome : ∃ r ∈ t.rows, toNumeric (cellOf t.cols r "UnitPrice") ≠ .null)
    (u : Table) (hok : clean_sales t = .ok u) :
    ∀ r ∈ u.rows, ∀ c ∈ SALES_NUMERIC ++ SALES_CATEGORICAL,
      cellOf t.cols r c ≠ .null := by
  have hu : u = cleanSalesSteps t := (clean_sales_ok_inv hok).1
  subst hu
  rcases medSalesVal_num t hsome with ⟨qm, hqm⟩
  intro r hr c hc
  rw [cleanSalesSteps_eq t (hreq _ (by decide)) hWF] at hr
  rcases List.mem_map.mp hr with ⟨r0, hr0, rfl⟩
  have hlen : t.cols.length ≤ r0.length :=
    le_of_eq (hWF _ (mem_dedupFirst.mp hr0)).symm
  simp only [SALES_NUMERIC, SALES_CATEGORICAL, List.mem_append,
    List.mem_cons, List.not_mem_nil, or_false] at hc
  rcases hc with (rfl | rfl | rfl | rfl | rfl | rfl) | (rfl | rfl | rfl | rfl | rfl)
  · rw [cellOf_salesRow_quantity _ (hreq _ (by decide)) hlen]
    exact fillna_ne_null _ (by simp)
  · rw [cellOf_salesRow_unitprice _ (hreq _ (by decide)) hlen, hqm]
    exact fillna_ne_null _ (by simp)
  · rw [cellOf_salesRow_discount _ (hreq _ (by decide)) hlen]
    exact fillna_ne_null _ (by simp)
  · rw [cellOf_salesRow_tax _ (hreq _ (by decide)) hlen]
    exact fillna_ne_null _ (by simp)
  · rw [cellOf_salesRow_shippingcost _ (hreq _ (by decide)) hlen]
    exact fillna_ne_null _ (by simp)
  · rw [cellOf_salesRow_totalamount _ (hreq _ (by decide))
      (hreq _ (by decide)) (hreq _ (by decide)) hlen, hqm]
    rcases fillna_num_toNumeric 1 (cellOf t.cols r0 "Quantity") with ⟨q1, hq1⟩
    rcases fillna_num_toNumeric qm (cellOf t.cols r0 "UnitPrice") with ⟨q2, hq2⟩
    rw [hq1, hq2, mulV_num]
    exact fillna_ne_null _ (by simp)
  · rw [cellOf_salesRow_cat _ (by decide) (hreq _ (by decide)) hlen]
    exact fillna_ne_null _ (by simp)
  · rw [cellOf_salesRow_cat _ (by decide) (hreq _ (by decide)) hlen]
    exact fillna_ne_null _ (by simp)
  · rw [cellOf_salesRow_cat _ (by decide) (hreq _ (by decide)) hlen]
    exact fillna_ne_null _ (by simp)
  · rw [cellOf_salesRow_cat _ (by decide) (hreq _ (by decide)) hlen]
    exact fillna_ne_null _ (by simp)
  · rw [cellOf_salesRow_cat _ (by decide) (hreq _ (by decide)) hlen]
    exact fillna_ne_null _ (by simp)

/-- C1 witness: non-nullness of the cleaned example table's UnitPrice cell
at row 0. -/
theorem clean_sales_no_nulls_witness :
    cellOf exSales.cols ((cleanSalesSteps exSales).rows.getD 0 [])
      "UnitPrice" ≠ .null :=
  clean_sales_no_nulls_of_median_defined exSales (by decide) (by decide)
    ⟨exSales.rows.getD 0 [], by decide, by decide⟩
    (cleanSalesSteps exSales) (by decide)
    ((cleanSalesSteps exSales).rows.getD 0 []) (by decide)
    "UnitPrice" (by decide)

/-- C8: the inventory transform succeeds on valid input, preserves columns,
deduplicates, fills nulls of ProductName/Category/Brand/SellerID with
"Unknown", and performs no coercion: every other column's cells are
unchanged. -/
theorem clean_inventory_spec (t : Table)
    (hreq : ∀ c ∈ INVENTORY_REQUIRED, c ∈ t.cols) (hWF : t.WF) :
    clean_inventory t = .ok (cleanInventorySteps t)
    ∧ (cleanInventorySteps t).cols = t.cols
    ∧ (cleanInventorySteps t).rows =
        (dedupFirst t.rows).map (invRow t.cols)
    ∧ ∀ k, k < (dedupFirst t.rows).length →
      (∀ c ∈ INVENTORY_FILL,
        cellOf t.cols ((cleanInventorySteps t).rows.getD k []) c =
          fillna (.str "Unknown")
            (cellOf t.cols ((dedupFirst t.rows).getD k []) c))
      ∧ (∀ c, ¬ c ∈ INVENTORY_FILL →
        cellOf t.cols ((cleanInventorySteps t).rows.getD k []) c =
          cellOf t.cols ((dedupFirst t.rows).getD k []) c) := by
  refine ⟨clean_inventory_ok hreq, ?_, ?_, ?_⟩
  · rw [cleanInventorySteps_eq]
  · rw [cleanInventorySteps_eq]
  · intro k hk
    have hr : (cleanInventorySteps t).rows.getD k [] =
        invRow t.cols ((dedupFirst t.rows).getD k []) := by
      rw [cleanInventorySteps_eq]
      exact getD_map_row _ hk
    have hmem : (dedupFirst t.rows).getD k [] ∈ t.rows :=
      mem_dedupFirst.mp (getD_mem_row hk)
    have hlen : t.cols.length ≤ ((dedupFirst t.rows).getD k []).length :=
      le_of_eq (hWF _ hmem).symm
    rw [hr]
    constructor
    · intro c hc
      have hcr : c ∈ INVENTORY_REQUIRED := by
        rcases (by simpa [INVENTORY_FILL] using hc :
            c = "ProductName" ∨ c = "Category" ∨ c = "Brand" ∨
            c = "SellerID") with rfl | rfl | rfl | rfl <;> decide
      exact cellOf_invRow_fill hc (hreq _ hcr) hlen
    · intro c hc
      exact cellOf_invRow_other _ hc

/-- C8 witness: the Brand fill and the ProductID pass-through at row 0 of
the example inventory table. -/
theorem clean_inventory_spec_witness :
    (cellOf exInv.cols ((cleanInventorySteps exInv).rows.getD 0 []) "Brand"
      = fillna (.str "Unknown")
          (cellOf exInv.cols ((dedupFirst exInv.rows).getD 0 []) "Brand"))
    ∧ (cellOf exInv.cols ((cleanInventorySteps exInv).rows.getD 0 [])
        "ProductID"
      = cellOf exInv.cols ((dedupFirst exInv.rows).getD 0 []) "ProductID") :=
  ⟨(((clean_inventory_spec exInv (by decide) (by decide)).2.2.2 0
      (by decide)).1 "Brand" (by decide)),
   (((clean_inventory_spec exInv (by decide) (by decide)).2.2.2 0
      (by decide)).2 "ProductID" (by decide))⟩

/-- C5 counterexample: on a valid two-row table whose rows differ only in
Quantity (`""` versus `"1"`), cleaning makes the rows identical, so running
the transform on its own output deduplicates them and yields a different
table: the transform is not idempotent as claimed. -/
theorem clean_sales_idempotent_counterexample :
    (clean_sales exSalesDup).bind clean_sales ≠ clean_sales exSalesDup := by
  decide

/-- The sales cleaning steps are the identity on a table whose rows are
pairwise distinct and whose cells already have cleaned shapes. -/
theorem cleanSalesSteps_eq_self {u : Table} (hnodup : u.rows.Nodup)
    (h1 : ∀ r ∈ u.rows, dateOrNull (cellOf u.cols r "OrderDate"))
    (h2 : ∀ r ∈ u.rows, ∃ q, cellOf u.cols r "Quantity" = .num q)
    (h3 : ∀ r ∈ u.rows, numOrNull (cellOf u.cols r "UnitPrice"))
    (h4 : ∀ r ∈ u.rows, ∃ q, cellOf u.cols r "Discount" = .num q)
    (h5 : ∀ r ∈ u.rows, ∃ q, cellOf u.cols r "Tax" = .num q)
    (h6 : ∀ r ∈ u.rows, ∃ q, cellOf u.cols r "ShippingCost" = .num q)
    (h7 : ∀ r ∈ u.rows, numOrNull (cellOf u.cols r "TotalAmount"))
    (h8 : ∀ r ∈ u.rows, cellOf u.cols r "TotalAmount" = .null →
        cellOf u.cols r "UnitPrice" = .null)
    (h9 : ∀ r ∈ u.rows, ∀ c ∈ SALES_CATEGORICAL,
        cellOf u.cols r c ≠ .null)
    (hU2 : (∀ r ∈ u.rows, cellOf u.cols r "UnitPrice" ≠ .null) ∨
        (∀ r ∈ u.rows, cellOf u.cols r "UnitPrice" = .null)) :
    cleanSalesSteps u = u := by
  have h0 : Table.mk u.cols (dedupFirst u.rows) = u := by
    rw [dedupFirst_eq_self hnodup]
  have e1 : mapCol u "OrderDate" toDatetime = u :=
    mapCol_eq_self (fun r hr => toDatetime_of_dateOrNull (h1 r hr))
  have e2 : mapCol u "Quantity" toNumeric = u :=
    mapCol_eq_self (fun r hr => by
      rcases h2 r hr with ⟨q, hq⟩
      rw [hq]
      rfl)
  have e3 : mapCol u "UnitPrice" toNumeric = u :=
    mapCol_eq_self (fun r hr => toNumeric_of_numOrNull (h3 r hr))
  have e4 : mapCol u "Discount" toNumeric = u :=
    mapCol_eq_self (fun r hr => by
      rcases h4 r hr with ⟨q, hq⟩
      rw [hq]
      rfl)
  have e5 : mapCol u "Tax" toNumeric = u :=
    mapCol_eq_self (fun r hr => by
      rcases h5 r hr with ⟨q, hq⟩
      rw [hq]
      rfl)
  have e6 : mapCol u "ShippingCost" toNumeric = u :=
    mapCol_eq_self (fun r hr => by
      rcases h6 r hr with ⟨q, hq⟩
      rw [hq]
      rfl)
  have e7 : mapCol u "TotalAmount" toNumeric = u :=
    mapCol_eq_self (fun r hr => toNumeric_of_numOrNull (h7 r hr))
  have e8 : mapCol u "Quantity" (fillna (.num 1)) = u :=
    mapCol_eq_self (fun r hr => by
      rcases h2 r hr with ⟨q, hq⟩
      rw [hq]
      exact fillna_of_ne_null _ (by simp))
  have e9 : mapCol u "UnitPrice" (fillna (colMedian u "UnitPrice")) = u := by
    apply mapCol_eq_self
    intro r hr
    rcases hU2 with hU | hU
    · exact fillna_of_ne_null _ (hU r hr)
    · have hcm : colMedian u "UnitPrice" = .null := colMedian_null hU
      rw [hcm, hU r hr, fillna_null]
  have e10 : mapCol u "Discount" (fillna (.num 0)) = u :=
    mapCol_eq_self (fun r hr => by
      rcases h4 r hr with ⟨q, hq⟩
      rw [hq]
      exact fillna_of_ne_null _ (by simp))
  have e11 : mapCol u "Tax" (fillna (.num 0)) = u :=
    mapCol_eq_self (fun r hr => by
      rcases h5 r hr with ⟨q, hq⟩
      rw [hq]
      exact fillna_of_ne_null _ (by simp))
  have e12 : mapCol u "ShippingCost" (fillna (.num 0)) = u :=
    mapCol_eq_self (fun r hr => by
      rcases h6 r hr with ⟨q, hq⟩
      rw [hq]
      exact fillna_of_ne_null _ (by simp))
  have e13 : fillTotalAmount u = u := by
    apply fillTotalAmount_eq_self
    intro r hr
    by_cases hta : cellOf u.cols r "TotalAmount" = .null
    · rw [hta, h8 r hr hta, mulV_null_right, fillna_null]
    · exact fillna_of_ne_null _ hta
  have e14 : mapCol u "PaymentMethod" (fillna (.str "Unknown")) = u :=
    mapCol_eq_self (fun r hr =>
      fillna_of_ne_null _ (h9 r hr _ (by decide)))
  have e15 : mapCol u "OrderStatus" (fillna (.str "Unknown")) = u :=
    mapCol_eq_self (fun r hr =>
      fillna_of_ne_null _ (h9 r hr _ (by decide)))
  have e16 : mapCol u "City" (fillna (.str "Unknown")) = u :=
    mapCol_eq_self (fun r hr =>
      fillna_of_ne_null _ (h9 r hr _ (by decide)))
  have e17 : mapCol u "State" (fillna (.str "Unknown")) = u :=
    mapCol_eq_self (fun r hr =>
      fillna_of_ne_null _ (h9 r hr _ (by decide)))
  have e18 : mapCol u "Country" (fillna (.str "Unknown")) = u :=
    mapCol_eq_self (fun r hr =>
      fillna_of_ne_null _ (h9 r hr _ (by decide)))
  simp only [cleanSalesSteps, fillCol, SALES_NUMERIC, SALES_CATEGORICAL,
    List.foldl_cons, List.foldl_nil]
  rw [h0, e1, e2, e3, e4, e5, e6, e7, e8, e9, e10, e11, e12, e13, e14,
    e15, e16, e17, e18]

/-- C5 (amended): the sales transform is idempotent on every output whose
rows are pairwise distinct; re-running it then changes nothing.  (In
general a second run may remove rows that the fills made equal.) -/
theorem clean_sales_idempotent_of_nodup (t u : Table) (hWF : t.WF)
    (hok : clean_sales t = .ok u) (hnodup : u.rows.Nodup) :
    clean_sales u = .ok u := by
  obtain ⟨hu, hreq⟩ := clean_sales_ok_inv hok
  have hup : "UnitPrice" ∈ t.cols := hreq _ (by decide)
  have hrows : u.rows =
      (dedupFirst t.rows).map (salesRow t.cols (medSalesVal t)) := by
    rw [hu, cleanSalesSteps_eq t hup hWF]
  have hcols : u.cols = t.cols := by
    rw [hu, cleanSalesSteps_eq t hup hWF]
  have hmemb : ∀ r ∈ u.rows, ∃ r0 ∈ dedupFirst t.rows,
      r = salesRow t.cols (medSalesVal t) r0 ∧ t.cols.length ≤ r0.length := by
    intro r hr
    rw [hrows] at hr
    rcases List.mem_map.mp hr with ⟨r0, hr0, rfl⟩
    exact ⟨r0, hr0, rfl, le_of_eq (hWF _ (mem_dedupFirst.mp hr0)).symm⟩
  have hcell8 : ∀ r ∈ u.rows, cellOf t.cols r "TotalAmount" = .null →
      cellOf t.cols r "UnitPrice" = .null := by
    intro r hr
    rcases hmemb r hr with ⟨r0, hr0, rfl, hlen⟩
    rw [cellOf_salesRow_totalamount _ (hreq _ (by decide))
        (hreq _ (by decide)) (hreq _ (by decide)) hlen,
      cellOf_salesRow_unitprice _ (hreq _ (by decide)) hlen]
    intro hta
    rcases fillna_eq_null_iff.mp hta with ⟨_, hmul⟩
    rcases fillna_num_toNumeric 1 (cellOf t.cols r0 "Quantity") with ⟨q1, hq1⟩
    rw [hq1] at hmul
    rcases fillna_numOrNull (medSalesVal_numOrNull t)
        (toNumeric_numOrNull (cellOf t.cols r0 "UnitPrice")) with
      ⟨q2, hq2⟩ | hq2
    · rw [hq2] at hmul
      exact absurd hmul (by simp [mulV])
    · exact hq2
  have hU2 : (∀ r ∈ u.rows, cellOf t.cols r "UnitPrice" ≠ .null) ∨
      (∀ r ∈ u.rows, cellOf t.cols r "UnitPrice" = .null) := by
    rcases medSalesVal_numOrNull t with ⟨qm, hqm⟩ | hqm
    · left
      intro r hr
      rcases hmemb r hr with ⟨r0, hr0, rfl, hlen⟩
      rw [cellOf_salesRow_unitprice _ (hreq _ (by decide)) hlen, hqm]
      exact fillna_ne_null _ (by simp)
    · right
      intro r hr
      rcases hmemb r hr with ⟨r0, hr0, rfl, hlen⟩
      rw [cellOf_salesRow_unitprice _ (hreq _ (by decide)) hlen, hqm,
        (medSalesVal_null_iff t).mp hqm _ hr0, fillna_null]
  have hreq' : ∀ c ∈ SALES_REQUIRED, c ∈ u.cols := by
    intro c hc
    rw [hcols]
    exact hreq c hc
  rw [clean_sales_ok hreq']
  have hsteps : cleanSalesSteps u = u := by
    apply cleanSalesSteps_eq_self hnodup
    · intro r hr
      rcases hmemb r hr with ⟨r0, hr0, rfl, hlen⟩
      rw [hcols, cellOf_salesRow_orderdate _ (hreq _ (by decide)) hlen]
      exact toDatetime_dateOrNull _
    · intro r hr
      rcases hmemb r hr with ⟨r0, hr0, rfl, hlen⟩
      rw [hcols, cellOf_salesRow_quantity _ (hreq _ (by decide)) hlen]
      exact fillna_num_toNumeric 1 _
    · intro r hr
      rcases hmemb r hr with ⟨r0, hr0, rfl, hlen⟩
      rw [hcols, cellOf_salesRow_unitprice _ (hreq _ (by decide)) hlen]
      exact fillna_numOrNull (medSalesVal_numOrNull t) (toNumeric_numOrNull _)
    · intro r hr
      rcases hmemb r hr with ⟨r0, hr0, rfl, hlen⟩
      rw [hcols, cellOf_salesRow_discount _ (hreq _ (by decide)) hlen]
      exact fillna_num_toNumeric 0 _
    · intro r hr
      rcases hmemb r hr with ⟨r0, hr0, rfl, hlen⟩
      rw [hcols, cellOf_salesRow_tax _ (hreq _ (by decide)) hlen]
      exact fillna_num_toNumeric 0 _
    · intro r hr
      rcases hmemb r hr with ⟨r0, hr0, rfl, hlen⟩
      rw [hcols, cellOf_salesRow_shippingcost _ (hreq _ (by decide)) hlen]
      exact fillna_num_toNumeric 0 _
    · intro r hr
      rcases hmemb r hr with ⟨r0, hr0, rfl, hlen⟩
      rw [hcols, cellOf_salesRow_totalamount _ (hreq _ (by decide))
        (hreq _ (by decide)) (hreq _ (by decide)) hlen]
      exact fillna_numOrNull (mulV_numOrNull _ _) (toNumeric_numOrNull _)
    · intro r hr
      rw [hcols]
      exact hcell8 r hr
    · intro r hr c hc
      rcases hmemb r hr with ⟨r0, hr0, rfl, hlen⟩
      have hcr : c ∈ SALES_REQUIRED := by
        rcases (by simpa [SALES_CATEGORICAL] using hc :
            c = "PaymentMethod" ∨ c = "OrderStatus" ∨ c = "City" ∨
            c = "State" ∨ c = "Country") with rfl | rfl | rfl | rfl | rfl <;>
          decide
      rw [hcols, cellOf_salesRow_cat _ hc (hreq _ hcr) hlen]
      exact fillna_ne_null _ (by simp)
    · rcases hU2 with hU | hU
      · left
        intro r hr
        rw [hcols]
        exact hU r hr
      · right
        intro r hr
        rw [hcols]
        exact hU r hr


  rw [hsteps]

/-- C5 witness: re-running the transform on the cleaned example table
returns it unchanged. -/
theorem clean_sales_idempotent_witness :
    clean_sales (cleanSalesSteps exSales) = .ok (cleanSalesSteps exSales) :=
  clean_sales_idempotent_of_nodup exSales (cleanSalesSteps exSales)
    (by decide) (by decide) (by decide)

/-- C9: every run reports a per-dataset outcome and always ends with the
completion line; the sales block's outcome (including any error) never
changes the inventory block's messages; a missing sales file is reported as
a sales error; and an absent inventory file yields an explicit skip while
leaving both inventory output files untouched. -/
theorem main_isolation_and_completion (today : String) (fs : FS) :
    (main today fs).1 = (salesStep today fs).1 ++ (invStep today fs).1
        ++ [Msg.ingestionCompleted]
    ∧ (main today fs).1.getLast? = some Msg.ingestionCompleted
    ∧ (Msg.salesCleanedSaved ∈ (main today fs).1
        ∨ Msg.salesError ∈ (main today fs).1)
    ∧ (Msg.invCleanedSaved ∈ (main today fs).1
        ∨ Msg.invError ∈ (main today fs).1
        ∨ Msg.invSkipped ∈ (main today fs).1)
    ∧ (fs.read salesRawPath = none → Msg.salesError ∈ (main today fs).1)
    ∧ (fs.read invRawPath = none →
        Msg.invSkipped ∈ (main today fs).1
        ∧ (main today fs).2.read invProcessedPath = fs.read invProcessedPath
        ∧ (main today fs).2.read (invDailyPath today)
            = fs.read (invDailyPath today)) := by
  have hdec := main_msgs_decompose today fs
  obtain ⟨hb, hr⟩ := salesStep_fs today fs
  refine ⟨hdec, ?_, ?_, ?_, ?_, ?_⟩
  · rw [hdec]
    exact List.getLast?_concat _
  · rcases salesStep_reported today fs with h | h
    · left
      rw [hdec]
      exact List.mem_append_left _ (List.mem_append_left _ h)
    · right
      rw [hdec]
      exact List.mem_append_left _ (List.mem_append_left _ h)
  · rcases invStep_reported today fs with h | h | h
    · left
      rw [hdec]
      exact List.mem_append_left _ (List.mem_append_right _ h)
    · right; left
      rw [hdec]
      exact List.mem_append_left _ (List.mem_append_right _ h)
    · right; right
      rw [hdec]
      exact List.mem_append_left _ (List.mem_append_right _ h)
  · intro hnone
    rw [hdec]
    have hs : (salesStep today fs).1 = [Msg.salesError] := by
      unfold salesStep
      rw [hnone]
    rw [hs]
    simp
  · intro hnone
    have hr' : (salesStep today fs).2.read invRawPath = none := by
      rw [hr invRawPath (by decide) (invRaw_ne_salesDaily today), hnone]
    have hi : invStep today (salesStep today fs).2 =
        ([Msg.invSkipped], (salesStep today fs).2) := by
      unfold invStep
      rw [hr']
    refine ⟨?_, ?_, ?_⟩
    · rw [hdec]
      have hiv : (invStep today fs).1 = [Msg.invSkipped] := by
        unfold invStep
        rw [hnone]
      rw [hiv]
      simp
    · show (invStep today (salesStep today fs).2).2.read invProcessedPath = _
      rw [hi]
      exact hr invProcessedPath (by decide) (invProc_ne_salesDaily today)
    · show (invStep today (salesStep today fs).2).2.read
          (invDailyPath today) = _
      rw [hi]
      exact hr (invDailyPath today) (invDaily_ne_salesProc today)
        (invDaily_ne_salesDaily today)

/-- C9 witness: a run on the example filesystem (sales file present,
inventory file absent, a ten-character date) completes and reports the
inventory skip. -/
theorem main_isolation_witness :
    (main "2025-10-12" exFS).1.getLast? = some Msg.ingestionCompleted
    ∧ Msg.invSkipped ∈ (main "2025-10-12" exFS).1 :=
  ⟨(main_isolation_and_completion "2025-10-12" exFS).2.1,
   ((main_isolation_and_completion "2025-10-12" exFS).2.2.2.2.2
      (by decide)).1⟩

end Ingest
